import Mathlib

/-!
Verification of the entity-resolution and network-construction core of the
wocket-demo repository (src/api/main.py): the name normalizer
`_fuzzy_cluster_key`, the greedy entity clusterer `_cluster_entities`, and the
owner-network graph builder `get_owner_network` (SQL traversal plus Python
post-processing).  Strings are modelled as `List Char`; `Option` models SQL
NULL / Python None.  Character-level operations (upper, strip, regex classes)
are modelled over ASCII, matching the data this code processes.  Recursive
scanners are written structurally (with a fuel parameter where the natural
recursion is on a shrinking suffix); the fuel is always initialized to a
provably sufficient bound, so the functions compute by kernel reduction.
-/

set_option maxHeartbeats 1000000
set_option maxRecDepth 100000

abbrev Str := List Char

/-- ASCII model of Python `str.upper` / SQL `UPPER` on one character. -/
def pyUpperChar (c : Char) : Char :=
  if 97 ≤ c.toNat ∧ c.toNat ≤ 122 then Char.ofNat (c.toNat - 32) else c

/-- ASCII model of Python `str.lower` / SQL `LOWER` on one character
(used for the case-insensitive `ILIKE`). -/
def pyLowerChar (c : Char) : Char :=
  if 65 ≤ c.toNat ∧ c.toNat ≤ 90 then Char.ofNat (c.toNat + 32) else c

def pyUpper (s : Str) : Str := s.map pyUpperChar

/-- Python whitespace (`str.strip`, regex `\s`), ASCII part:
space, tab, newline, carriage return, vertical tab, form feed. -/
def pyIsSpace (c : Char) : Bool :=
  c == ' ' || c == '\t' || c == '\n' || c == '\r' || c == '\x0b' || c == '\x0c'

/-- Drop matching characters from the end of a list. -/
def dropTrail (p : Char → Bool) (s : Str) : Str :=
  (s.reverse.dropWhile p).reverse

/-- Python `str.strip()`: remove leading and trailing whitespace. -/
def pyStrip (s : Str) : Str := dropTrail pyIsSpace (s.dropWhile pyIsSpace)

/-- SQL `TRIM`: removes only the space character from both ends. -/
def sqlTrim (s : Str) : Str :=
  dropTrail (fun c => c == ' ') (s.dropWhile (fun c => c == ' '))

/-- Worker for `pySplit`: `cur` is the current token, reversed. -/
def pySplitGo : Str → Str → List Str
  | cur, [] => if cur = [] then [] else [cur.reverse]
  | cur, c :: rest =>
    if pyIsSpace c then
      (if cur = [] then pySplitGo [] rest else cur.reverse :: pySplitGo [] rest)
    else pySplitGo (c :: cur) rest

/-- Python `str.split()` with no argument: split on whitespace runs,
dropping empty pieces. -/
def pySplit (s : Str) : List Str := pySplitGo [] s

/-- Python regex word character `\w` (ASCII part), used for `\b` boundaries. -/
def isWordChar (c : Char) : Bool :=
  decide (65 ≤ c.toNat ∧ c.toNat ≤ 90) || decide (97 ≤ c.toNat ∧ c.toNat ≤ 122) ||
  decide (48 ≤ c.toNat ∧ c.toNat ≤ 57) || c == '_'

/-- Match a literal pattern at the head of a string, returning the rest. -/
def matchLit : Str → Str → Option Str
  | [], s => some s
  | _ :: _, [] => none
  | c :: p, d :: s => if c = d then matchLit p s else none

/-- The `REAL\s*ESTATE` alternative: literal `REAL`, a greedy run of
whitespace, then literal `ESTATE` (the run is followed by a non-space
literal, so greedy matching needs no backtracking). -/
def matchRealEstate (s : Str) : Option Str :=
  match matchLit ("REAL".data) s with
  | some rest => matchLit ("ESTATE".data) (rest.dropWhile pyIsSpace)
  | none => none

/-- Trailing `\b` test after a match: boundary iff the word-ness of the last
matched character differs from that of the next character (end of string
counts as non-word). -/
def trailOk (last : Char) (rest : Str) : Bool :=
  isWordChar last != (match rest with | [] => false | d :: _ => isWordChar d)

/-- Try a list of literal pattern expansions in order (regex backtracking
order); an expansion succeeds when it matches and the trailing `\b` holds. -/
def tryCands : List Str → Str → Option (Str × Char)
  | [], _ => none
  | p :: ps, s =>
    match matchLit p s with
    | some rest =>
      if trailOk (p.getLastD ' ') rest then some (rest, p.getLastD ' ')
      else tryCands ps s
    | none => tryCands ps s

/-- Expansions of the suffix alternation, in Python backtracking order,
up to and including `REALTY` (the part before `REAL\s*ESTATE`):
`LLC | L\.?L\.?C\.? | CORP\.? | CORPORATION | INC\.? | INCORPORATED |
CO\.? | COMPANY | LTD\.? | LIMITED | LP | L\.?P\.? | ASSOCIATES? | MGMT |
MANAGEMENT | REALTY`.  Optional dots expand greedily, rightmost option
backtracked first. -/
def sufGroupA : List Str :=
  [("LLC".data),
   ("L.L.C.".data), ("L.L.C".data), ("L.LC.".data), ("L.LC".data),
   ("LL.C.".data), ("LL.C".data), ("LLC.".data), ("LLC".data),
   ("CORP.".data), ("CORP".data), ("CORPORATION".data),
   ("INC.".data), ("INC".data), ("INCORPORATED".data),
   ("CO.".data), ("CO".data), ("COMPANY".data),
   ("LTD.".data), ("LTD".data), ("LIMITED".data),
   ("LP".data), ("L.P.".data), ("L.P".data), ("LP.".data), ("LP".data),
   ("ASSOCIATES".data), ("ASSOCIATE".data),
   ("MGMT".data), ("MANAGEMENT".data), ("REALTY".data)]

/-- Alternatives after `REAL\s*ESTATE`: `PROPERTIES | GROUP | HOLDINGS?`. -/
def sufGroupB : List Str :=
  [("PROPERTIES".data), ("GROUP".data), ("HOLDINGS".data), ("HOLDING".data)]

/-- Try the whole suffix alternation at the current position, returning the
rest of the string and the last matched character (needed for subsequent
`\b` tests). -/
def trySuffix (s : Str) : Option (Str × Char) :=
  match tryCands sufGroupA s with
  | some r => some r
  | none =>
    match matchRealEstate s with
    | some rest =>
      if trailOk 'E' rest then some (rest, 'E') else tryCands sufGroupB s
    | none => tryCands sufGroupB s

/-- Fueled worker for `subSuf`.  Every step consumes at least one character,
so fuel `s.length` is sufficient; the fuel-exhausted branch is unreachable
for that initialization. -/
def subSufF : Nat → Bool → Str → Str
  | 0, _, s => s
  | _ + 1, _, [] => []
  | fuel + 1, prevWord, c :: rest =>
    if !prevWord && isWordChar c then
      match trySuffix (c :: rest) with
      | some (after, lastC) => subSufF fuel (isWordChar lastC) after
      | none => c :: subSufF fuel (isWordChar c) rest
    else c :: subSufF fuel (isWordChar c) rest

/-- Model of `re.sub(r'\b(LLC|...|HOLDINGS?)\b', '', s)`: scan left to right;
at each position where a leading `\b` can hold (previous character non-word;
every alternative starts with a word character), try the alternation; on a
match, drop it and continue after it, otherwise emit the character.
`prevWord` is the word-ness of the previous character of the original
string. -/
def subSuf (prevWord : Bool) (s : Str) : Str := subSufF s.length prevWord s

/-- Regex character class kept by `re.sub(r'[^A-Z0-9\s]', '', s)`:
uppercase letters, digits, whitespace. -/
def keepPunct (c : Char) : Bool :=
  decide (65 ≤ c.toNat ∧ c.toNat ≤ 90) || decide (48 ≤ c.toNat ∧ c.toNat ≤ 57) ||
  pyIsSpace c

/-- Worker for `collapseRuns`: `inRun` records whether the previous character
was whitespace (so its run has already emitted its single space). -/
def collapseGo : Bool → Str → Str
  | _, [] => []
  | inRun, c :: rest =>
    if pyIsSpace c then
      (if inRun then collapseGo true rest else ' ' :: collapseGo true rest)
    else c :: collapseGo false rest

/-- Model of `re.sub(r'\s+', ' ', s)`: replace each maximal whitespace run
with a single space. -/
def collapseRuns (s : Str) : Str := collapseGo false s

/-- `_fuzzy_cluster_key` (src/api/main.py:1167): normalize a corporate name —
empty in, empty out; otherwise uppercase, strip, remove legal-entity suffix
tokens at word boundaries, drop characters outside `[A-Z0-9\s]`, collapse
whitespace runs, and strip again. -/
def fuzzyClusterKey (name : Str) : Str :=
  if name = [] then []
  else pyStrip (collapseRuns (List.filter keepPunct (subSuf false (pyStrip (pyUpper name)))))


/-! ### difflib.SequenceMatcher ratio

`_cluster_entities` compares normalized keys with
`SequenceMatcher(None, key, existing_key).ratio()`: twice the total size of
the matching blocks over the total length.  The matching blocks come from
recursively taking the longest matching block (ties: smallest start in `a`,
then smallest start in `b`) and recursing on the pieces to its left and
right.  We model the ratio as an exact rational; `difflib`'s autojunk
heuristic (only active when the second string has 200 or more characters) is
not modelled, so theorems about the ratio carry a length bound where it
matters. -/

/-- Length of the common run of equal characters at the heads. -/
def commonRun : Str → Str → Nat
  | c :: a, d :: b => if c = d then commonRun a b + 1 else 0
  | _, _ => 0

/-- All candidate block starts `(i, j)` in scan order: `i` ascending,
then `j` ascending. -/
def allCells (a b : Str) : List (Nat × Nat) :=
  (List.range a.length).foldr
    (fun i acc => ((List.range b.length).map (fun j => (i, j))) ++ acc) []

/-- Scan the cells keeping the first strictly-longest block (so ties go to
the smallest `i`, then the smallest `j` — `difflib`'s selection rule). -/
def bestFold (a b : Str) : List (Nat × Nat) → Nat × Nat × Nat → Nat × Nat × Nat
  | [], acc => acc
  | (i, j) :: rest, (bi, bj, bk) =>
    let k := commonRun (a.drop i) (b.drop j)
    if bk < k then bestFold a b rest (i, j, k) else bestFold a b rest (bi, bj, bk)

/-- Longest matching block of `a` and `b` as `(i, j, size)`: maximal size,
ties broken by smallest `i`, then smallest `j` (the block found first by
`difflib`'s scan order). -/
def bestMatch (a b : Str) : Nat × Nat × Nat := bestFold a b (allCells a b) (0, 0, 0)

/-- Fueled worker for `matchTotal`; each recursion strictly shrinks the total
length, so fuel `a.length + b.length` is sufficient. -/
def matchTotalF : Nat → Str → Str → Nat
  | 0, _, _ => 0
  | fuel + 1, a, b =>
    match bestMatch a b with
    | (i, j, k) =>
      if k = 0 then 0
      else matchTotalF fuel (a.take i) (b.take j) + k +
           matchTotalF fuel (a.drop (i + k)) (b.drop (j + k))

/-- Total size of the matching blocks of `a` and `b`
(`sum(b.size for b in get_matching_blocks())`). -/
def matchTotal (a b : Str) : Nat := matchTotalF (a.length + b.length) a b

/-- `SequenceMatcher(None, a, b).ratio()` as an exact rational:
`2*M / (len(a)+len(b))`, and `1` when both strings are empty. -/
def simRatioQ (a b : Str) : ℚ :=
  if a.length + b.length = 0 then 1
  else (2 * (matchTotal a b : ℚ)) / ((a.length : ℚ) + (b.length : ℚ))

/-- The comparison `SequenceMatcher(None, a, b).ratio() > 0.85` from
`_cluster_entities`, written over naturals so that it computes by kernel
reduction: for `la + lb > 0`, `2M/(la+lb) > 17/20` iff `40*M > 17*(la+lb)`;
the ratio of two empty strings is 1, hence above the threshold. -/
def simGT (a b : Str) : Bool :=
  if a.length + b.length = 0 then true
  else decide (17 * (a.length + b.length) < 40 * matchTotal a b)


/-! ### Association-list helpers (Python dict / set semantics)

Python dicts preserve insertion order; assignment to a present key updates in
place, otherwise appends.  Sets are modelled as first-occurrence-ordered
duplicate-free lists (order is normalized away by the code before output:
set contents are either sorted or only counted). -/

def alookup {κ ν : Type} [DecidableEq κ] (m : List (κ × ν)) (k : κ) : Option ν :=
  (m.find? (fun p => decide (p.1 = k))).map (fun p => p.2)

/-- Python dict assignment `m[k] = v`: replace the value at a present key in
place, otherwise append the new binding. -/
def dictUpd {κ ν : Type} [DecidableEq κ] : List (κ × ν) → κ → ν → List (κ × ν)
  | [], k, v => [(k, v)]
  | p :: m, k, v => if p.1 = k then (k, v) :: m else p :: dictUpd m k v

def addSet {α : Type} [DecidableEq α] (l : List α) (x : α) : List α :=
  if x ∈ l then l else l ++ [x]

/-- One step of first-occurrence deduplication: keep the accumulator when
the element was already seen, otherwise append it. -/
def dedupStep {α : Type} [DecidableEq α] (acc : List α) (x : α) : List α :=
  if x ∈ acc then acc else acc ++ [x]

def dedupF {α : Type} [DecidableEq α] (l : List α) : List α :=
  l.foldl dedupStep []

/-! ### `_cluster_entities` (src/api/main.py:1188) -/

/-- Scan the existing cluster keys in creation order; join the first whose
key is equal to `k` or whose similarity ratio with `k` strictly exceeds
0.85 (`SequenceMatcher(None, k, existing_key).ratio() > 0.85`). -/
def findCluster (k : Str) : List (Str × List Str) → Option Str
  | [] => none
  | (ek, _) :: rest =>
    if k = ek then some ek
    else if simGT k ek then some ek
    else findCluster k rest

def addVariant (km : List (Str × List Str)) (k : Str) (n : Str) : List (Str × List Str) :=
  km.map (fun p => if p.1 = k then (p.1, p.2 ++ [n]) else p)

/-- One iteration of the clustering loop: skip falsy names and names with an
empty normalized key; otherwise append the name to the first matching
cluster, or start a new cluster keyed by its normalized key. -/
def clusterStep (km : List (Str × List Str)) (name : Str) : List (Str × List Str) :=
  if name = [] then km
  else
    let k := fuzzyClusterKey name
    if k = [] then km
    else
      match findCluster k km with
      | some ek => addVariant km ek name
      | none => km ++ [(k, [name])]

/-- `Counter(variants).most_common(1)[0][0]`: the variant with the highest
multiplicity, ties broken by first occurrence. -/
def mostCommonVariant (l : List Str) : Str :=
  (dedupF l).foldl (fun best c => if l.count c > l.count best then c else best) (l.headD [])

/-- `_cluster_entities`: greedy single-pass clustering, then map every
variant of every cluster to the cluster's most common variant. -/
def clusterEntities (names : List Str) : List (Str × Str) :=
  (names.foldl clusterStep []).foldl
    (fun res p => p.2.foldl (fun r v => dictUpd r v (mostCommonVariant p.2)) res) []


/-! ### Data model for `get_owner_network` (src/api/main.py:1227)

Table schemas from src/create_demo_db.py: `hpd_contacts(registrationid TEXT,
type TEXT, contactdescription TEXT, corporationname TEXT, firstname TEXT,
lastname TEXT, ...)`, `hpd_registrations(registrationid TEXT PRIMARY KEY,
bin TEXT)`, `building_scores(bin TEXT PRIMARY KEY, address TEXT, borough
TEXT, score_grade TEXT, open_class_c INTEGER, latitude NUMERIC, longitude
NUMERIC, ...)`.  `Option` is SQL NULL.  The query also selects
`c.registrationcontactid`, modelled as an opaque optional identifier. -/

structure Contact where
  registrationcontactid : Option Str
  registrationid : Option Str
  type : Option Str
  contactdescription : Option Str
  corporationname : Option Str
  firstname : Option Str
  lastname : Option Str
deriving DecidableEq

structure Registration where
  registrationid : Str
  bin : Option Str
deriving DecidableEq

structure BScore where
  bin : Str
  address : Option Str
  borough : Option Str
  score_grade : Option Str
  open_class_c : Option Int
  latitude : Option ℚ
  longitude : Option ℚ
deriving DecidableEq

structure DB where
  contacts : List Contact
  registrations : List Registration
  scores : List BScore

/-- One row of the final SELECT: a network contact joined (LEFT JOIN) with
its building's score record. -/
structure Row where
  registrationcontactid : Option Str
  type : Option Str
  contactdescription : Option Str
  corporationname : Option Str
  firstname : Option Str
  lastname : Option Str
  bin : Option Str
  address : Option Str
  borough : Option Str
  score_grade : Option Str
  open_class_c : Option Int
  latitude : Option ℚ
  longitude : Option ℚ
deriving DecidableEq

structure Edge where
  source : Str
  target : Str
  relation : Str
deriving DecidableEq

inductive Node where
  | person (id : Str) (label : Str) (roles : List Str) (building_count : Nat)
  | entity (id : Str) (label : Str) (building_count : Nat)
  | building (id : Str) (label : Str) (address : Str) (borough : Str) (grade : Str)
      (open_class_c : Option Int) (latitude : Option ℚ) (longitude : Option ℚ)
deriving DecidableEq

def nodeId : Node → Str
  | .person i _ _ _ => i
  | .entity i _ _ => i
  | .building i _ _ _ _ _ _ _ => i

structure Stats where
  total_buildings : Nat
  total_people : Nat
  total_entities : Nat
  boroughs : List Str
deriving DecidableEq

structure Graph where
  center : Str
  nodes : List Node
  edges : List Edge
  stats : Stats
deriving DecidableEq

/-! ### Graph assembly (the Python loop over the query rows) -/

structure PInfo where
  roles : List Str
  bins : List Str
deriving DecidableEq

structure EInfo where
  bins : List Str
deriving DecidableEq

structure BInfo where
  address : Str
  borough : Str
  score_grade : Str
  open_class_c : Option Int
  latitude : Option ℚ
  longitude : Option ℚ
deriving DecidableEq

structure BuildState where
  people : List ((Str × Str) × PInfo)
  entities : List (Str × EInfo)
  buildings : List (Str × BInfo)
  edges : List Edge

/-- Python `x or d` for an optional string field: `d` when the field is NULL
or empty. -/
def orDefault (a : Option Str) (d : Str) : Str :=
  match a with
  | some s => if s = [] then d else s
  | none => d

/-- `contact_desc = r['contactdescription'] or r['type'] or ''`. -/
def contactDesc (r : Row) : Str := orDefault r.contactdescription (orDefault r.type [])

/-- `bin_val = str(r['bin']) if r['bin'] else None` — `bin` is TEXT, so
`str` is the identity and NULL or the empty string yields None. -/
def binVal (r : Row) : Option Str :=
  match r.bin with
  | some b => if b = [] then none else some b
  | none => none

/-- `float(x) if x else None`: NULL and zero collapse to None. -/
def qTruthy (q : Option ℚ) : Option ℚ :=
  match q with
  | some v => if v = 0 then none else some v
  | none => none

/-- `(r['firstname'] or '').strip().upper()`. -/
def fnOf (r : Row) : Str := pyUpper (pyStrip (r.firstname.getD []))

def lnOf (r : Row) : Str := pyUpper (pyStrip (r.lastname.getD []))

def corpOf (r : Row) : Str := pyUpper (pyStrip (r.corporationname.getD []))

def personId (fn ln : Str) : Str := ("person:".data) ++ fn ++ ['_'] ++ ln

/-- `f"entity:{canonical.replace(' ', '_')}"`. -/
def entityIdStr (canonical : Str) : Str :=
  ("entity:".data) ++ canonical.map (fun c => if c = ' ' then '_' else c)

def buildingId (b : Str) : Str := ("building:".data) ++ b

/-- `if bin_val and bin_val not in buildings: buildings[bin_val] = {...}` —
insert the first-seen attributes, never overwrite. -/
def trackBuilding (st : BuildState) (r : Row) : BuildState :=
  match binVal r with
  | some b =>
    if (alookup st.buildings b).isSome then st
    else { st with buildings := st.buildings ++ [(b,
      { address := r.address.getD [], borough := r.borough.getD [],
        score_grade := r.score_grade.getD [], open_class_c := r.open_class_c,
        latitude := qTruthy r.latitude, longitude := qTruthy r.longitude })] }
  | none => st

/-- Person upsert: when first and last name are non-empty, add the role to
the person's role set; with a building, also record the bin and emit the
person-to-building edge. -/
def trackPerson (st : BuildState) (r : Row) : BuildState :=
  let fn := fnOf r
  let ln := lnOf r
  if fn ≠ [] ∧ ln ≠ [] then
    let cd := contactDesc r
    let info := (alookup st.people (fn, ln)).getD { roles := [], bins := [] }
    let info1 := { info with roles := addSet info.roles cd }
    match binVal r with
    | some b =>
      { st with
        people := dictUpd st.people (fn, ln) { info1 with bins := addSet info1.bins b },
        edges := st.edges ++ [{ source := personId fn ln, target := buildingId b, relation := cd }] }
    | none => { st with people := dictUpd st.people (fn, ln) info1 }
  else st

/-- Entity upsert: resolve the uppercased corporation name through the
canonical mapping (identity fallback), upsert the entity; with a building,
record the bin and emit the entity-to-building edge; when the same row also
carries a person, emit the person-to-entity edge. -/
def trackEntity (canon : List (Str × Str)) (st : BuildState) (r : Row) : BuildState :=
  let corp := corpOf r
  if corp ≠ [] then
    let cd := contactDesc r
    let canonical := (alookup canon corp).getD corp
    let einfo := (alookup st.entities canonical).getD { bins := [] }
    let fn := fnOf r
    let ln := lnOf r
    let pe : List Edge :=
      if fn ≠ [] ∧ ln ≠ [] then
        [{ source := personId fn ln, target := entityIdStr canonical, relation := cd }]
      else []
    match binVal r with
    | some b =>
      { st with
        entities := dictUpd st.entities canonical { bins := addSet einfo.bins b },
        edges := st.edges ++
          [{ source := entityIdStr canonical, target := buildingId b, relation := cd }] ++ pe }
    | none => { st with entities := dictUpd st.entities canonical einfo, edges := st.edges ++ pe }
  else st

/-- Loop body of the row-processing loop, in source order: building, then
person, then entity. -/
def processRow (canon : List (Str × Str)) (st : BuildState) (r : Row) : BuildState :=
  trackEntity canon (trackPerson (trackBuilding st r) r) r

/-- The distinct uppercased, stripped corporation names of the rows.  The
source collects them in a Python set; set iteration order is modelled as
first-occurrence order. -/
def allCorpOf (rows : List Row) : List Str :=
  dedupF (rows.filterMap (fun r => match r.corporationname with
    | some c => if c = [] then none else some (pyUpper (pyStrip c))
    | none => none))

def canonOf (rows : List Row) : List (Str × Str) := clusterEntities (allCorpOf rows)

def assembleState (rows : List Row) : BuildState :=
  rows.foldl (processRow (canonOf rows)) { people := [], entities := [], buildings := [], edges := [] }

/-- Python string comparison (code-point lexicographic), as used by
`sorted`. -/
def strLe : Str → Str → Bool
  | [], _ => true
  | _ :: _, [] => false
  | c :: a, d :: b =>
    if c.toNat < d.toNat then true else if c.toNat = d.toNat then strLe a b else false

def insSorted (x : Str) : List Str → List Str
  | [] => [x]
  | y :: l => if strLe x y then x :: y :: l else y :: insSorted x l

/-- Python `sorted` on a collection of distinct strings. -/
def sortStrs (l : List Str) : List Str := l.foldr insSorted []

/-- ASCII model of Python `str.title()` for node labels: a letter is
uppercased after a non-letter and lowercased after a letter. -/
def pyTitleGo : Bool → Str → Str
  | _, [] => []
  | prevAlpha, c :: rest =>
    (if decide (65 ≤ c.toNat ∧ c.toNat ≤ 90) || decide (97 ≤ c.toNat ∧ c.toNat ≤ 122) then
      (if prevAlpha then pyLowerChar c else pyUpperChar c)
    else c) ::
      pyTitleGo (decide (65 ≤ c.toNat ∧ c.toNat ≤ 90) ||
        decide (97 ≤ c.toNat ∧ c.toNat ≤ 122)) rest

def pyTitle (s : Str) : Str := pyTitleGo false s

def personNode (p : (Str × Str) × PInfo) : Node :=
  Node.person (personId p.1.1 p.1.2) (pyTitle p.1.1 ++ [' '] ++ pyTitle p.1.2)
    (sortStrs p.2.roles) p.2.bins.length

def entityNode (p : Str × EInfo) : Node :=
  Node.entity (entityIdStr p.1) (pyTitle p.1) p.2.bins.length

def buildingNode (p : Str × BInfo) : Node :=
  Node.building (buildingId p.1) p.2.address p.2.address p.2.borough p.2.score_grade
    p.2.open_class_c p.2.latitude p.2.longitude

/-- Rows-to-graph assembly (src/api/main.py:1328): cluster the corporation
names, fold the rows into people / entities / buildings / edges,
deduplicate the edges, and emit nodes and stats. -/
def graphStats (st : BuildState) : Stats :=
  { total_buildings := st.buildings.length,
    total_people := st.people.length,
    total_entities := st.entities.length,
    boroughs := sortStrs (dedupF (st.buildings.filterMap
      (fun p => if p.2.borough = [] then none else some p.2.borough))) }

def buildGraph (rows : List Row) (name : Str) : Graph :=
  let st := assembleState rows
  { center := pyUpper name,
    nodes := st.people.map personNode ++ st.entities.map entityNode ++
      st.buildings.map buildingNode,
    edges := dedupF st.edges,
    stats := graphStats st }

/-! ### The SQL traversal (the CTE query of src/api/main.py:1249)

Each CTE reads `hpd_contacts` with its own `WHERE c.type != 'SiteManager'`
filter; SQL three-valued logic makes that filter reject NULL types as well.
`SELECT DISTINCT` is modelled as first-occurrence deduplication (the query
has no ORDER BY, so row order is unspecified; a fixed order is chosen for
determinism), and `LIMIT 500` as `take 500` of the distinct list. -/

/-- Fueled worker for Postgres `LIKE` pattern matching (case-folded for
`ILIKE`): `%` matches any sequence, `_` any one character, backslash
escapes the next pattern character.  Every step shrinks
`pattern.length + string.length`, so that fuel bound is sufficient. -/
def likeMatchF : Nat → Str → Str → Bool
  | 0, _, _ => false
  | _ + 1, [], s => s.isEmpty
  | fuel + 1, '%' :: p, s =>
    likeMatchF fuel p s ||
      (match s with | [] => false | _ :: s2 => likeMatchF fuel ('%' :: p) s2)
  | fuel + 1, '_' :: p, s =>
    (match s with | [] => false | _ :: s2 => likeMatchF fuel p s2)
  | fuel + 1, '\\' :: c :: p, s =>
    (match s with
     | [] => false
     | d :: s2 => (pyLowerChar c == pyLowerChar d) && likeMatchF fuel p s2)
  | fuel + 1, c :: p, s =>
    (match s with
     | [] => false
     | d :: s2 => (pyLowerChar c == pyLowerChar d) && likeMatchF fuel p s2)

/-- `field ILIKE pattern`, NULL field never matches. -/
def pgILike (field : Option Str) (pat : Str) : Bool :=
  match field with
  | some s => likeMatchF (pat.length + s.length + 1) pat s
  | none => false

/-- The pattern `f"%{name}%"`. -/
def seedPat (name : Str) : Str := '%' :: (name ++ ['%'])

/-- The seed-matching WHERE clause: always try the corporation name; with
two or more tokens in the stripped seed, match first token against
firstname and last token against lastname, otherwise match the whole seed
against lastname. -/
def seedCond (name : Str) (c : Contact) : Bool :=
  let parts := pySplit (pyStrip name)
  pgILike c.corporationname (seedPat name) ||
  (if 2 ≤ parts.length then
    pgILike c.firstname (seedPat (parts.headD [])) &&
      pgILike c.lastname (seedPat (parts.getLastD []))
  else pgILike c.lastname (seedPat name))

/-- `c.type != 'SiteManager'` under SQL three-valued logic: NULL is not
accepted. -/
def typeOk (c : Contact) : Bool :=
  match c.type with
  | some t => !(t == ("SiteManager".data))
  | none => false

def activeContacts (db : DB) : List Contact := db.contacts.filter typeOk

/-- `seed_registrations`: DISTINCT registration ids of non-SiteManager
contacts matching the seed. -/
def seedRegs (db : DB) (name : Str) : List (Option Str) :=
  dedupF (((activeContacts db).filter (seedCond name)).map (fun c => c.registrationid))

/-- `seed_bins`: DISTINCT non-NULL bins of registrations joined to the seed
registrations. -/
def seedBins (db : DB) (name : Str) : List Str :=
  dedupF (db.registrations.filterMap (fun r =>
    match r.bin with
    | some b => if some r.registrationid ∈ seedRegs db name then some b else none
    | none => none))

/-- `hop1_contacts`: DISTINCT non-SiteManager contacts on registrations
tied to a seed bin. -/
def hop1Contacts (db : DB) (name : Str) : List Contact :=
  dedupF ((activeContacts db).filter (fun c =>
    db.registrations.any (fun r =>
      (c.registrationid == some r.registrationid) &&
      match r.bin with
      | some b => decide (b ∈ seedBins db name)
      | none => false)))

/-- `UPPER(TRIM(field))` under NULL propagation. -/
def utOpt (o : Option Str) : Option Str := o.map (fun s => pyUpper (sqlTrim s))

/-- `hop1_person_keys`: DISTINCT `(UPPER(TRIM(firstname)),
UPPER(TRIM(lastname)))` of hop-1 contacts with both names non-NULL and
non-empty. -/
def hop1PersonKeys (db : DB) (name : Str) : List (Str × Str) :=
  dedupF ((hop1Contacts db name).filterMap (fun c =>
    match c.firstname, c.lastname with
    | some f, some l =>
      if f ≠ [] ∧ l ≠ [] then some (pyUpper (sqlTrim f), pyUpper (sqlTrim l)) else none
    | _, _ => none))

/-- `hop1_entity_keys`: DISTINCT `UPPER(TRIM(corporationname))` of hop-1
contacts with a non-NULL, non-empty corporation name. -/
def hop1EntityKeys (db : DB) (name : Str) : List Str :=
  dedupF ((hop1Contacts db name).filterMap (fun c =>
    match c.corporationname with
    | some cn => if cn ≠ [] then some (pyUpper (sqlTrim cn)) else none
    | none => none))

/-- `hop2_registrations`: DISTINCT registration ids of non-SiteManager
contacts whose person key or entity key appears among the hop-1 keys
(NULL fields never compare equal). -/
def hop2Regs (db : DB) (name : Str) : List (Option Str) :=
  dedupF (((activeContacts db).filter (fun c =>
    (hop1PersonKeys db name).any (fun pk =>
      (utOpt c.firstname == some pk.1) && (utOpt c.lastname == some pk.2)) ||
    (hop1EntityKeys db name).any (fun ek => utOpt c.corporationname == some ek))).map
    (fun c => c.registrationid))

/-- `all_network_bins`: DISTINCT non-NULL bins of registrations in the seed
or hop-2 registration sets, capped at 500. -/
def allNetworkBins (db : DB) (name : Str) : List Str :=
  (dedupF (db.registrations.filterMap (fun r =>
    match r.bin with
    | some b =>
      if some r.registrationid ∈ seedRegs db name ∨ some r.registrationid ∈ hop2Regs db name
      then some b else none
    | none => none))).take 500

/-- `all_network_contacts`: DISTINCT (contact columns, bin) for
non-SiteManager contacts on registrations whose bin is in the network bin
set. -/
def allNetworkContacts (db : DB) (name : Str) : List (Contact × Str) :=
  dedupF ((activeContacts db).flatMap (fun c =>
    db.registrations.filterMap (fun r =>
      match r.bin with
      | some b =>
        if (c.registrationid == some r.registrationid) && decide (b ∈ allNetworkBins db name)
        then some (c, b) else none
      | none => none)))

/-- LEFT JOIN of one network contact with `building_scores` on bin: one row
per matching score record, or a single NULL-extended row. -/
def joinScore (scs : List BScore) (cb : Contact × Str) : List Row :=
  match scs.filter (fun s => s.bin == cb.2) with
  | [] =>
    [{ registrationcontactid := cb.1.registrationcontactid, type := cb.1.type,
       contactdescription := cb.1.contactdescription,
       corporationname := cb.1.corporationname, firstname := cb.1.firstname,
       lastname := cb.1.lastname, bin := some cb.2, address := none, borough := none,
       score_grade := none, open_class_c := none, latitude := none, longitude := none }]
  | ss => ss.map (fun s =>
    { registrationcontactid := cb.1.registrationcontactid, type := cb.1.type,
      contactdescription := cb.1.contactdescription,
      corporationname := cb.1.corporationname, firstname := cb.1.firstname,
      lastname := cb.1.lastname, bin := some cb.2, address := s.address,
      borough := s.borough, score_grade := s.score_grade,
      open_class_c := s.open_class_c, latitude := s.latitude, longitude := s.longitude })

/-- The final SELECT: the network contacts left-joined with building
scores. -/
def networkRows (db : DB) (name : Str) : List Row :=
  (allNetworkContacts db name).flatMap (joinScore db.scores)

/-- The `if not rows:` early return (src/api/main.py:1325): center is the
raw seed, empty nodes and edges, all-zero stats, empty borough list. -/
def emptyNetGraph (name : Str) : Graph :=
  { center := name, nodes := [], edges := [],
    stats := { total_buildings := 0, total_people := 0,
               total_entities := 0, boroughs := [] } }

/-- `get_owner_network`: run the traversal; an empty row set yields the
empty graph, otherwise assemble the graph from the rows. -/
def ownerNetwork (db : DB) (name : Str) : Graph :=
  if networkRows db name = [] then emptyNetGraph name
  else buildGraph (networkRows db name) name

/-! ### Observation extractors used by the theorem statements -/

/-- The person key `(fn, ln)` a row contributes, when both are non-empty. -/
def rowPersonKey (r : Row) : Option (Str × Str) :=
  if fnOf r ≠ [] ∧ lnOf r ≠ [] then some (fnOf r, lnOf r) else none

/-- The canonical entity label a row contributes under a canonical mapping,
when its corporation name is non-empty. -/
def rowCanonKey (canon : List (Str × Str)) (r : Row) : Option Str :=
  if corpOf r ≠ [] then some ((alookup canon (corpOf r)).getD (corpOf r)) else none

def nodePersonId : Node → Option Str
  | .person i _ _ _ => some i
  | _ => none

def nodeEntityId : Node → Option Str
  | .entity i _ _ => some i
  | _ => none

def nodeBuildingId : Node → Option Str
  | .building i _ _ _ _ _ _ _ => some i
  | _ => none

def personIds (g : Graph) : List Str := g.nodes.filterMap nodePersonId

def entityIds (g : Graph) : List Str := g.nodes.filterMap nodeEntityId

def buildingIds (g : Graph) : List Str := g.nodes.filterMap nodeBuildingId

/-- All node ids generated by the three dictionaries of a build state. -/
def stateIds (st : BuildState) : List Str :=
  st.people.map (fun p => personId p.1.1 p.1.2) ++
  st.entities.map (fun p => entityIdStr p.1) ++
  st.buildings.map (fun p => buildingId p.1)

/-! ### Sanity checks on concrete inputs -/

example : fuzzyClusterKey ("Eisenstein Realty LLC".data) = ("EISENSTEIN".data) := by decide
example : fuzzyClusterKey ("ACME INC".data) = ("ACME".data) := by decide
example : fuzzyClusterKey ("L-L-C".data) = ("LLC".data) := by decide
example : fuzzyClusterKey ("LLC".data) = [] := by decide
example : fuzzyClusterKey ("XYZ LLC MANAGEMENT CORP".data) = ("XYZ".data) := by decide
example : fuzzyClusterKey ("SMITH PROPERTIES".data) = ("SMITH".data) := by decide
example : fuzzyClusterKey ("A.B.C. REAL  ESTATE CO.".data) = ("ABC".data) := by decide

theorem simGT_iff (a b : Str) : simGT a b = true ↔ (17 : ℚ)/20 < simRatioQ a b := by
  unfold simGT simRatioQ
  by_cases h : a.length + b.length = 0
  · simp only [h, if_pos rfl, if_true]
    norm_num
  · rw [if_neg h, if_neg h]
    have hT : (0 : ℚ) < (a.length : ℚ) + (b.length : ℚ) := by
      have : 0 < a.length + b.length := Nat.pos_of_ne_zero h
      exact_mod_cast this
    rw [decide_eq_true_iff, div_lt_div_iff₀ (by norm_num) hT]
    rw [show (2 : ℚ) * (matchTotal a b : ℚ) * 20 = ((40 * matchTotal a b : ℕ) : ℚ) by
      push_cast; ring]
    rw [show (17 : ℚ) * ((a.length : ℚ) + (b.length : ℚ)) =
        ((17 * (a.length + b.length) : ℕ) : ℚ) by push_cast; ring]
    exact Nat.cast_lt.symm

example : matchTotal ("EINENSTEIN".data) ("EISENSTEIN".data) = 9 := by decide
example : simRatioQ ("EINENSTEIN".data) ("EISENSTEIN".data) = 9/10 := by
  have h : matchTotal ("EINENSTEIN".data) ("EISENSTEIN".data) = 9 := by decide
  simp [simRatioQ, h]
  norm_num
example : simRatioQ ("AAAAAAAAAAAAAAAAACCC".data) ("AAAAAAAAAAAAAAAAABBB".data) = 17/20 := by
  have h : matchTotal ("AAAAAAAAAAAAAAAAACCC".data) ("AAAAAAAAAAAAAAAAABBB".data) = 17 := by
    decide
  simp [simRatioQ, h]
  norm_num
example : matchTotal ("SMITH".data) ("JONES".data) = 1 := by decide

example :
    clusterEntities [("EISENSTEIN MGMT LLC".data), ("EISENSTEIN MANAGEMENT CORP".data),
      ("ACME INC".data)] =
    [(("EISENSTEIN MGMT LLC".data), ("EISENSTEIN MGMT LLC".data)),
     (("EISENSTEIN MANAGEMENT CORP".data), ("EISENSTEIN MGMT LLC".data)),
     (("ACME INC".data), ("ACME INC".data))] := by decide

example : clusterEntities [("LLC".data)] = [] := by decide

example :
    clusterEntities [("AAAAAAAAAAAAAAAAABBB".data), ("AAAAAAAAAAAAAAAAACCC".data)] =
    [(("AAAAAAAAAAAAAAAAABBB".data), ("AAAAAAAAAAAAAAAAABBB".data)),
     (("AAAAAAAAAAAAAAAAACCC".data), ("AAAAAAAAAAAAAAAAACCC".data))] := by decide

/-! ### Lemmas about the dict / set helpers -/

theorem mem_foldl_dedup {α : Type} [DecidableEq α] :
    ∀ (l acc : List α) (x : α),
      (x ∈ l.foldl dedupStep acc) ↔ x ∈ acc ∨ x ∈ l := by
  intro l
  induction l with
  | nil => intro acc x; simp
  | cons y l ih =>
    intro acc x
    simp only [List.foldl_cons, dedupStep]
    rw [ih]
    by_cases hy : y ∈ acc
    · rw [if_pos hy]
      simp only [List.mem_cons]
      constructor
      · rintro (h | h)
        · exact Or.inl h
        · exact Or.inr (Or.inr h)
      · rintro (h | h | h)
        · exact Or.inl h
        · exact Or.inl (h ▸ hy)
        · exact Or.inr h
    · rw [if_neg hy]
      simp only [List.mem_append, List.mem_singleton, List.mem_cons]
      tauto

theorem mem_dedupF {α : Type} [DecidableEq α] (l : List α) (x : α) :
    x ∈ dedupF l ↔ x ∈ l := by
  unfold dedupF
  rw [mem_foldl_dedup]
  simp

theorem nodup_foldl_dedup {α : Type} [DecidableEq α] :
    ∀ (l acc : List α), acc.Nodup → (l.foldl dedupStep acc).Nodup := by
  intro l
  induction l with
  | nil => intro acc h; simpa using h
  | cons y l ih =>
    intro acc h
    simp only [List.foldl_cons, dedupStep]
    by_cases hy : y ∈ acc
    · rw [if_pos hy]; exact ih acc h
    · rw [if_neg hy]
      refine ih _ ?_
      simp only [List.nodup_append, List.nodup_singleton, List.disjoint_singleton]
      exact ⟨h, trivial, hy⟩

theorem nodup_dedupF {α : Type} [DecidableEq α] (l : List α) : (dedupF l).Nodup :=
  nodup_foldl_dedup l [] List.nodup_nil

theorem alookup_cons {κ ν : Type} [DecidableEq κ] (p : κ × ν) (m : List (κ × ν)) (k : κ) :
    alookup (p :: m) k = if p.1 = k then some p.2 else alookup m k := by
  unfold alookup
  by_cases h : p.1 = k
  · rw [List.find?_cons_of_pos _ (by simp [h]), if_pos h]
    rfl
  · rw [List.find?_cons_of_neg _ (by simp [h]), if_neg h]

theorem alookup_dictUpd_self {κ ν : Type} [DecidableEq κ] :
    ∀ (m : List (κ × ν)) (k : κ) (v : ν), alookup (dictUpd m k v) k = some v := by
  intro m
  induction m with
  | nil => intro k v; simp [dictUpd, alookup_cons]
  | cons p m ih =>
    intro k v
    unfold dictUpd
    by_cases h : p.1 = k
    · rw [if_pos h, alookup_cons, if_pos rfl]
    · rw [if_neg h, alookup_cons, if_neg h]
      exact ih k v

theorem alookup_dictUpd_other {κ ν : Type} [DecidableEq κ] :
    ∀ (m : List (κ × ν)) (k : κ) (v : ν) (k2 : κ), k2 ≠ k →
      alookup (dictUpd m k v) k2 = alookup m k2 := by
  intro m
  induction m with
  | nil =>
    intro k v k2 hne
    simp only [dictUpd]
    rw [alookup_cons, if_neg (fun h => hne h.symm)]
  | cons p m ih =>
    intro k v k2 hne
    unfold dictUpd
    by_cases h : p.1 = k
    · rw [if_pos h, alookup_cons, alookup_cons,
        if_neg (show ¬((k, v).1 = k2) from fun h2 => hne h2.symm),
        if_neg (show ¬(p.1 = k2) from fun h2 => hne ((h.symm.trans h2).symm))]
    · rw [if_neg h, alookup_cons, alookup_cons]
      by_cases h2 : p.1 = k2
      · rw [if_pos h2, if_pos h2]
      · rw [if_neg h2, if_neg h2]
        exact ih k v k2 hne

theorem dictUpd_keys_ite {κ ν : Type} [DecidableEq κ] :
    ∀ (m : List (κ × ν)) (k : κ) (v : ν),
      (dictUpd m k v).map Prod.fst =
        if k ∈ m.map Prod.fst then m.map Prod.fst else m.map Prod.fst ++ [k] := by
  intro m
  induction m with
  | nil => intro k v; simp [dictUpd]
  | cons p m ih =>
    intro k v
    unfold dictUpd
    by_cases h : p.1 = k
    · rw [if_pos h]
      simp only [List.map_cons]
      rw [if_pos (by simp [h])]
      rw [h]
    · rw [if_neg h]
      simp only [List.map_cons]
      rw [ih]
      by_cases hk : k ∈ m.map Prod.fst
      · rw [if_pos hk, if_pos (by simp only [List.mem_cons]; exact Or.inr hk)]
      · have hc : ¬(k ∈ p.1 :: List.map Prod.fst m) := by
          simp only [List.mem_cons]
          rintro (h2 | h2)
          · exact h h2.symm
          · exact hk h2
        rw [if_neg hk, if_neg hc]
        simp

theorem dictUpd_keys {κ ν : Type} [DecidableEq κ] :
    ∀ (m : List (κ × ν)) (k : κ) (v : ν),
      (dictUpd m k v).map Prod.fst = dedupStep (m.map Prod.fst) k := by
  simp only [dedupStep]
  exact fun m => dictUpd_keys_ite m

theorem mem_addSet {α : Type} [DecidableEq α] (l : List α) (x y : α) :
    y ∈ addSet l x ↔ y ∈ l ∨ y = x := by
  unfold addSet
  by_cases h : x ∈ l
  · rw [if_pos h]
    constructor
    · exact Or.inl
    · rintro (hy | hy)
      · exact hy
      · exact hy ▸ h
  · rw [if_neg h]
    simp

/-! ### Claim C7 -/

/-- Claim C7: the edges of the graph built by `get_owner_network` are
deduplicated on the exact `(source, target, relation)` triple — an `Edge`
record is exactly that triple: the output edge list has no duplicate and
contains an edge iff the row-processing loop generated it, so a relationship
observed in two or more rows yields exactly one edge. -/
theorem buildGraph_edge_dedup (rows : List Row) (name : Str) :
    (buildGraph rows name).edges.Nodup ∧
      ∀ e : Edge, e ∈ (buildGraph rows name).edges ↔ e ∈ (assembleState rows).edges := by
  have h : (buildGraph rows name).edges = dedupF (assembleState rows).edges := rfl
  constructor
  · rw [h]; exact nodup_dedupF _
  · intro e; rw [h]; exact mem_dedupF _ e

/-! ### Claims C8 and C10: rows dropped by every type filter are inert -/

/-- The database with its contacts table replaced. -/
abbrev withContacts (db : DB) (cs : List Contact) : DB :=
  { contacts := cs, registrations := db.registrations, scores := db.scores }

/-- Any filter on the contacts table that is implied by `typeOk` (every
contact passing `typeOk` passes it) leaves the owner network unchanged,
because every traversal stage reads the contacts through the
`type != 'SiteManager'` filter. -/
theorem ownerNetwork_filter_contacts (db : DB) (f : Contact → Bool)
    (hf : ∀ c, typeOk c = (f c && typeOk c)) (name : Str) :
    ownerNetwork (withContacts db (db.contacts.filter f)) name = ownerNetwork db name := by
  have hac : activeContacts (withContacts db (db.contacts.filter f)) = activeContacts db := by
    unfold activeContacts
    show (db.contacts.filter f).filter typeOk = db.contacts.filter typeOk
    rw [List.filter_filter]
    congr 1
    funext c
    have h := hf c
    cases hfc : f c with
    | true => simp [hfc]
    | false =>
      rw [hfc] at h
      simp only [Bool.false_and] at h
      simp [h, hfc]
  have h1 : seedRegs (withContacts db (db.contacts.filter f)) name = seedRegs db name := by
    unfold seedRegs; rw [hac]
  have h2 : seedBins (withContacts db (db.contacts.filter f)) name = seedBins db name := by
    unfold seedBins; rw [h1]
  have h3 : hop1Contacts (withContacts db (db.contacts.filter f)) name =
      hop1Contacts db name := by
    unfold hop1Contacts; rw [hac, h2]
  have h4 : hop1PersonKeys (withContacts db (db.contacts.filter f)) name =
      hop1PersonKeys db name := by
    unfold hop1PersonKeys; rw [h3]
  have h5 : hop1EntityKeys (withContacts db (db.contacts.filter f)) name =
      hop1EntityKeys db name := by
    unfold hop1EntityKeys; rw [h3]
  have h6 : hop2Regs (withContacts db (db.contacts.filter f)) name = hop2Regs db name := by
    unfold hop2Regs; rw [hac, h4, h5]
  have h7 : allNetworkBins (withContacts db (db.contacts.filter f)) name =
      allNetworkBins db name := by
    unfold allNetworkBins; rw [h1, h6]
  have h8 : allNetworkContacts (withContacts db (db.contacts.filter f)) name =
      allNetworkContacts db name := by
    unfold allNetworkContacts; rw [hac, h7]
  have h9 : networkRows (withContacts db (db.contacts.filter f)) name =
      networkRows db name := by
    unfold networkRows; rw [h8]
  unfold ownerNetwork
  rw [h9]

/-- Claim C8: a contact row whose role type is `'SiteManager'` contributes
no node and no edge to the owner network — deleting all such rows from the
contacts table leaves `get_owner_network` unchanged, since every traversal
stage (seed matching, hop-1 collection, hop-2 expansion, final contact
collection) filters them out. -/
theorem ownerNetwork_siteManager_excluded (db : DB) (name : Str) :
    ownerNetwork (withContacts db (db.contacts.filter
      (fun c => !(c.type == some ("SiteManager".data))))) name =
    ownerNetwork db name := by
  refine ownerNetwork_filter_contacts db _ ?_ name
  intro c
  unfold typeOk
  cases ht : c.type with
  | none => simp
  | some t =>
    by_cases htb : (t == ("SiteManager".data)) = true
    · simp [htb]
    · simp [htb, Bool.eq_false_iff.mpr htb]

/-- Claim C10: a contact row whose role type is NULL is excluded from the
whole traversal, like a site-manager row — deleting all NULL-typed rows from
the contacts table leaves `get_owner_network` unchanged, so such a row
produces no node and no edge. -/
theorem ownerNetwork_null_type_excluded (db : DB) (name : Str) :
    ownerNetwork (withContacts db (db.contacts.filter (fun c => c.type.isSome))) name =
    ownerNetwork db name := by
  refine ownerNetwork_filter_contacts db _ ?_ name
  intro c
  unfold typeOk
  cases ht : c.type with
  | none => simp
  | some t => simp

/-! ### Claim C9: the relation label is description-else-type-else-empty -/

theorem trackBuilding_edges (st : BuildState) (r : Row) :
    (trackBuilding st r).edges = st.edges := by
  unfold trackBuilding
  cases hb : binVal r with
  | none => rfl
  | some b =>
    dsimp only
    by_cases h : (alookup st.buildings b).isSome
    · rw [if_pos h]
    · rw [if_neg h]

theorem trackBuilding_people (st : BuildState) (r : Row) :
    (trackBuilding st r).people = st.people := by
  unfold trackBuilding
  cases hb : binVal r with
  | none => rfl
  | some b =>
    dsimp only
    by_cases h : (alookup st.buildings b).isSome
    · rw [if_pos h]
    · rw [if_neg h]

theorem trackBuilding_entities (st : BuildState) (r : Row) :
    (trackBuilding st r).entities = st.entities := by
  unfold trackBuilding
  cases hb : binVal r with
  | none => rfl
  | some b =>
    dsimp only
    by_cases h : (alookup st.buildings b).isSome
    · rw [if_pos h]
    · rw [if_neg h]

theorem trackEntity_people (canon : List (Str × Str)) (st : BuildState) (r : Row) :
    (trackEntity canon st r).people = st.people := by
  unfold trackEntity
  by_cases hc : corpOf r ≠ []
  · rw [if_pos hc]
    cases hb : binVal r with
    | none => rfl
    | some b => rfl
  · rw [if_neg hc]

theorem trackEntity_buildings (canon : List (Str × Str)) (st : BuildState) (r : Row) :
    (trackEntity canon st r).buildings = st.buildings := by
  unfold trackEntity
  by_cases hc : corpOf r ≠ []
  · rw [if_pos hc]
    cases hb : binVal r with
    | none => rfl
    | some b => rfl
  · rw [if_neg hc]

theorem trackPerson_buildings (st : BuildState) (r : Row) :
    (trackPerson st r).buildings = st.buildings := by
  unfold trackPerson
  by_cases hp : fnOf r ≠ [] ∧ lnOf r ≠ []
  · rw [if_pos hp]
    cases hb : binVal r with
    | none => rfl
    | some b => rfl
  · rw [if_neg hp]

theorem trackPerson_entities (st : BuildState) (r : Row) :
    (trackPerson st r).entities = st.entities := by
  unfold trackPerson
  by_cases hp : fnOf r ≠ [] ∧ lnOf r ≠ []
  · rw [if_pos hp]
    cases hb : binVal r with
    | none => rfl
    | some b => rfl
  · rw [if_neg hp]

theorem trackPerson_edge_mem (st : BuildState) (r : Row) :
    ∀ e ∈ (trackPerson st r).edges, e ∈ st.edges ∨ e.relation = contactDesc r := by
  unfold trackPerson
  by_cases hp : fnOf r ≠ [] ∧ lnOf r ≠ []
  · rw [if_pos hp]
    cases hb : binVal r with
    | none => intro e he; exact Or.inl he
    | some b =>
      intro e he
      rcases List.mem_append.mp he with h | h
      · exact Or.inl h
      · right
        rw [List.mem_singleton] at h
        rw [h]
  · rw [if_neg hp]
    intro e he
    exact Or.inl he

theorem trackEntity_edge_mem (canon : List (Str × Str)) (st : BuildState) (r : Row) :
    ∀ e ∈ (trackEntity canon st r).edges, e ∈ st.edges ∨ e.relation = contactDesc r := by
  unfold trackEntity
  by_cases hc : corpOf r ≠ []
  · rw [if_pos hc]
    cases hb : binVal r with
    | none =>
      intro e he
      rcases List.mem_append.mp he with h | h
      · exact Or.inl h
      · right
        by_cases hp : fnOf r ≠ [] ∧ lnOf r ≠ []
        · rw [if_pos hp] at h
          rw [List.mem_singleton] at h
          rw [h]
        · rw [if_neg hp] at h
          exact absurd h (List.not_mem_nil e)
    | some b =>
      intro e he
      rcases List.mem_append.mp he with h | h
      · rcases List.mem_append.mp h with h2 | h2
        · exact Or.inl h2
        · right
          rw [List.mem_singleton] at h2
          rw [h2]
      · right
        by_cases hp : fnOf r ≠ [] ∧ lnOf r ≠ []
        · rw [if_pos hp] at h
          rw [List.mem_singleton] at h
          rw [h]
        · rw [if_neg hp] at h
          exact absurd h (List.not_mem_nil e)
  · rw [if_neg hc]
    intro e he
    exact Or.inl he

theorem trackPerson_people_lookup (st : BuildState) (r : Row) (k : Str × Str) (info : PInfo) :
    alookup (trackPerson st r).people k = some info →
    ∀ ρ ∈ info.roles,
      (∃ old : PInfo, alookup st.people k = some old ∧ ρ ∈ old.roles) ∨ ρ = contactDesc r := by
  unfold trackPerson
  by_cases hp : fnOf r ≠ [] ∧ lnOf r ≠ []
  · rw [if_pos hp]
    cases hb : binVal r with
    | some b =>
      intro h ρ hρ
      by_cases hk : k = (fnOf r, lnOf r)
      · rw [hk, alookup_dictUpd_self] at h
        injection h with h
        rw [← h] at hρ
        rcases (mem_addSet _ _ _).mp hρ with h2 | h2
        · cases hl : alookup st.people (fnOf r, lnOf r) with
          | some old =>
            rw [hl] at h2
            exact Or.inl ⟨old, by rw [hk]; exact hl, h2⟩
          | none =>
            rw [hl] at h2
            simp at h2
        · exact Or.inr h2
      · rw [alookup_dictUpd_other _ _ _ _ hk] at h
        exact Or.inl ⟨info, h, hρ⟩
    | none =>
      intro h ρ hρ
      by_cases hk : k = (fnOf r, lnOf r)
      · rw [hk, alookup_dictUpd_self] at h
        injection h with h
        rw [← h] at hρ
        rcases (mem_addSet _ _ _).mp hρ with h2 | h2
        · cases hl : alookup st.people (fnOf r, lnOf r) with
          | some old =>
            rw [hl] at h2
            exact Or.inl ⟨old, by rw [hk]; exact hl, h2⟩
          | none =>
            rw [hl] at h2
            simp at h2
        · exact Or.inr h2
      · rw [alookup_dictUpd_other _ _ _ _ hk] at h
        exact Or.inl ⟨info, h, hρ⟩
  · rw [if_neg hp]
    intro h ρ hρ
    exact Or.inl ⟨info, h, hρ⟩

/-- Claim C9: for every row the loop processes, every edge produced from
that row carries the relation label `contactdescription or type or ''`
(the row's contact description when non-empty, else its type when
non-empty, else the empty string), and any role added to a person's role
set is that same label. -/
theorem processRow_relation_label (canon : List (Str × Str)) (st : BuildState) (r : Row) :
    (∀ e ∈ (processRow canon st r).edges, e ∈ st.edges ∨ e.relation = contactDesc r) ∧
    (∀ (k : Str × Str) (info : PInfo),
      alookup (processRow canon st r).people k = some info →
      ∀ ρ ∈ info.roles,
        (∃ old : PInfo, alookup st.people k = some old ∧ ρ ∈ old.roles) ∨
          ρ = contactDesc r) := by
  constructor
  · intro e he
    unfold processRow at he
    rcases trackEntity_edge_mem canon _ r e he with h | h
    · rcases trackPerson_edge_mem _ r e h with h2 | h2
      · rw [trackBuilding_edges] at h2
        exact Or.inl h2
      · exact Or.inr h2
    · exact Or.inr h
  · intro k info h
    unfold processRow at h
    rw [trackEntity_people] at h
    have h2 := trackPerson_people_lookup (trackBuilding st r) r k info h
    rw [trackBuilding_people] at h2
    exact h2

/-! ### Claim C6: a seed matching no contact row yields the empty graph -/

/-- Claim C6: when the seed name matches zero contact rows, the traversal
returns no rows and `get_owner_network` returns — without error — a graph
with no nodes, no edges, and all-zero stats with an empty borough list. -/
theorem ownerNetwork_no_match_empty (db : DB) (name : Str)
    (h : ∀ c ∈ db.contacts, seedCond name c = false) :
    (ownerNetwork db name).nodes = [] ∧ (ownerNetwork db name).edges = [] ∧
      (ownerNetwork db name).stats = ⟨0, 0, 0, []⟩ := by
  have h1 : seedRegs db name = [] := by
    unfold seedRegs
    have hf : (activeContacts db).filter (seedCond name) = [] := by
      rw [List.filter_eq_nil_iff]
      intro c hc
      have hcc : c ∈ db.contacts := List.mem_of_mem_filter hc
      simp [h c hcc]
    rw [hf]
    rfl
  have h2 : seedBins db name = [] := by
    unfold seedBins
    rw [h1]
    have hf : (db.registrations.filterMap fun r =>
        match r.bin with
        | some b => if some r.registrationid ∈ ([] : List (Option Str)) then some b else none
        | none => none) = [] := by
      rw [List.filterMap_eq_nil_iff]
      intro r hr
      cases hb : r.bin with
      | none => rfl
      | some b => simp
    rw [hf]
    rfl
  have h3 : hop1Contacts db name = [] := by
    unfold hop1Contacts
    rw [h2]
    have hf : ((activeContacts db).filter fun c =>
        db.registrations.any fun r =>
          (c.registrationid == some r.registrationid) &&
          match r.bin with
          | some b => decide (b ∈ ([] : List Str))
          | none => false) = [] := by
      rw [List.filter_eq_nil_iff]
      intro c _
      simp only [List.any_eq_true, not_exists]
      intro r
      rintro ⟨_, hr⟩
      cases hb : r.bin with
      | none => rw [hb] at hr; simp at hr
      | some b => rw [hb] at hr; simp at hr
    rw [hf]
    rfl
  have h4 : hop1PersonKeys db name = [] := by
    unfold hop1PersonKeys
    rw [h3]
    rfl
  have h5 : hop1EntityKeys db name = [] := by
    unfold hop1EntityKeys
    rw [h3]
    rfl
  have h6 : hop2Regs db name = [] := by
    unfold hop2Regs
    rw [h4, h5]
    have hf : ((activeContacts db).filter fun c =>
        (([] : List (Str × Str)).any fun pk =>
          (utOpt c.firstname == some pk.1) && (utOpt c.lastname == some pk.2)) ||
        (([] : List Str).any fun ek => utOpt c.corporationname == some ek)) = [] := by
      rw [List.filter_eq_nil_iff]
      intro c _
      simp
    rw [hf]
    rfl
  have h7 : allNetworkBins db name = [] := by
    unfold allNetworkBins
    rw [h1, h6]
    have hf : (db.registrations.filterMap fun r =>
        match r.bin with
        | some b =>
          if some r.registrationid ∈ ([] : List (Option Str)) ∨
              some r.registrationid ∈ ([] : List (Option Str)) then some b else none
        | none => none) = [] := by
      rw [List.filterMap_eq_nil_iff]
      intro r _
      cases hb : r.bin with
      | none => rfl
      | some b => simp
    rw [hf]
    rfl
  have h8 : allNetworkContacts db name = [] := by
    unfold allNetworkContacts
    rw [h7]
    have hf : ((activeContacts db).flatMap fun c =>
        db.registrations.filterMap fun r =>
          match r.bin with
          | some b =>
            if (c.registrationid == some r.registrationid) && decide (b ∈ ([] : List Str))
            then some (c, b) else none
          | none => none) = [] := by
      rw [List.flatMap_eq_nil_iff]
      intro c _
      rw [List.filterMap_eq_nil_iff]
      intro r _
      cases hb : r.bin with
      | none => rfl
      | some b => simp
    rw [hf]
    rfl
  have h9 : networkRows db name = [] := by
    unfold networkRows
    rw [h8]
    rfl
  unfold ownerNetwork
  rw [h9, if_pos rfl]
  exact ⟨rfl, rfl, rfl⟩

theorem ownerNetwork_no_match_empty_witness :
    (ownerNetwork ⟨[], [], []⟩ ("NOBODY".data)).nodes = [] ∧
      (ownerNetwork ⟨[], [], []⟩ ("NOBODY".data)).edges = [] ∧
      (ownerNetwork ⟨[], [], []⟩ ("NOBODY".data)).stats = ⟨0, 0, 0, []⟩ :=
  ownerNetwork_no_match_empty ⟨[], [], []⟩ ("NOBODY".data)
    (fun c hc => absurd hc (List.not_mem_nil c))

/-- Witness for C9: a concrete row with a person, a building, and a type
label produces the person-to-building edge labeled by the type. -/
theorem processRow_relation_label_witness :
    (Edge.mk (personId ("JO".data) ("DOE".data)) (buildingId ("B1".data)) ("Agent".data)) ∈
      (processRow [] ⟨[], [], [], []⟩ (Row.mk none (some ("Agent".data)) none none
        (some ("JO".data)) (some ("DOE".data)) (some ("B1".data)) none none none none
        none none)).edges ∧
    ((Edge.mk (personId ("JO".data) ("DOE".data)) (buildingId ("B1".data)) ("Agent".data)) ∈
        (BuildState.mk [] [] [] []).edges ∨
      (Edge.mk (personId ("JO".data) ("DOE".data)) (buildingId ("B1".data))
          ("Agent".data)).relation =
        contactDesc (Row.mk none (some ("Agent".data)) none none (some ("JO".data))
          (some ("DOE".data)) (some ("B1".data)) none none none none none none)) :=
  ⟨by decide,
    (processRow_relation_label [] ⟨[], [], [], []⟩ (Row.mk none (some ("Agent".data)) none
      none (some ("JO".data)) (some ("DOE".data)) (some ("B1".data)) none none none none
      none none)).1 _ (by decide)⟩

/-! ### Claim C4: one node per distinct key -/

theorem alookup_isSome_iff {κ ν : Type} [DecidableEq κ] :
    ∀ (m : List (κ × ν)) (k : κ), (alookup m k).isSome = true ↔ k ∈ m.map Prod.fst := by
  intro m
  induction m with
  | nil => intro k; simp [alookup]
  | cons p m ih =>
    intro k
    rw [alookup_cons]
    by_cases h : p.1 = k
    · simp [h]
    · rw [if_neg h]
      simp only [List.map_cons, List.mem_cons]
      rw [ih]
      constructor
      · exact Or.inr
      · rintro (h2 | h2)
        · exact absurd h2.symm h
        · exact h2

theorem trackPerson_people_keys (st : BuildState) (r : Row) :
    (trackPerson st r).people.map Prod.fst =
      match rowPersonKey r with
      | some k => dedupStep (st.people.map Prod.fst) k
      | none => st.people.map Prod.fst := by
  unfold trackPerson rowPersonKey
  by_cases hp : fnOf r ≠ [] ∧ lnOf r ≠ []
  · rw [if_pos hp, if_pos hp]
    cases hb : binVal r with
    | some b =>
      dsimp only
      rw [dictUpd_keys]
    | none =>
      dsimp only
      rw [dictUpd_keys]
  · rw [if_neg hp, if_neg hp]

theorem trackEntity_entities_keys (canon : List (Str × Str)) (st : BuildState) (r : Row) :
    (trackEntity canon st r).entities.map Prod.fst =
      match rowCanonKey canon r with
      | some k => dedupStep (st.entities.map Prod.fst) k
      | none => st.entities.map Prod.fst := by
  unfold trackEntity rowCanonKey
  by_cases hc : corpOf r ≠ []
  · rw [if_pos hc, if_pos hc]
    cases hb : binVal r with
    | some b =>
      dsimp only
      rw [dictUpd_keys]
    | none =>
      dsimp only
      rw [dictUpd_keys]
  · rw [if_neg hc, if_neg hc]

theorem trackBuilding_buildings_keys (st : BuildState) (r : Row) :
    (trackBuilding st r).buildings.map Prod.fst =
      match binVal r with
      | some b => dedupStep (st.buildings.map Prod.fst) b
      | none => st.buildings.map Prod.fst := by
  unfold trackBuilding
  cases hb : binVal r with
  | none => rfl
  | some b =>
    dsimp only
    unfold dedupStep
    by_cases h : (alookup st.buildings b).isSome
    · rw [if_pos h, if_pos ((alookup_isSome_iff _ _).mp h)]
    · rw [if_neg h, if_neg (fun hm => h ((alookup_isSome_iff _ _).mpr hm))]
      simp

theorem processRow_people_keys (canon : List (Str × Str)) (st : BuildState) (r : Row) :
    (processRow canon st r).people.map Prod.fst =
      match rowPersonKey r with
      | some k => dedupStep (st.people.map Prod.fst) k
      | none => st.people.map Prod.fst := by
  unfold processRow
  rw [trackEntity_people, trackPerson_people_keys, trackBuilding_people]

theorem processRow_entities_keys (canon : List (Str × Str)) (st : BuildState) (r : Row) :
    (processRow canon st r).entities.map Prod.fst =
      match rowCanonKey canon r with
      | some k => dedupStep (st.entities.map Prod.fst) k
      | none => st.entities.map Prod.fst := by
  unfold processRow
  rw [trackEntity_entities_keys, trackPerson_entities, trackBuilding_entities]

theorem processRow_buildings_keys (canon : List (Str × Str)) (st : BuildState) (r : Row) :
    (processRow canon st r).buildings.map Prod.fst =
      match binVal r with
      | some b => dedupStep (st.buildings.map Prod.fst) b
      | none => st.buildings.map Prod.fst := by
  unfold processRow
  rw [trackEntity_buildings, trackPerson_buildings, trackBuilding_buildings_keys]

theorem foldl_people_keys (canon : List (Str × Str)) :
    ∀ (rows : List Row) (st : BuildState),
      ((rows.foldl (processRow canon) st).people.map Prod.fst) =
        (rows.filterMap rowPersonKey).foldl dedupStep (st.people.map Prod.fst) := by
  intro rows
  induction rows with
  | nil => intro st; rfl
  | cons r rows ih =>
    intro st
    simp only [List.foldl_cons, List.filterMap_cons]
    cases hk : rowPersonKey r with
    | some k =>
      rw [ih]
      have h2 := processRow_people_keys canon st r
      rw [hk] at h2
      rw [h2]
      dsimp only
      rw [List.foldl_cons]
    | none =>
      rw [ih]
      have h2 := processRow_people_keys canon st r
      rw [hk] at h2
      rw [h2]

theorem foldl_entities_keys (canon : List (Str × Str)) :
    ∀ (rows : List Row) (st : BuildState),
      ((rows.foldl (processRow canon) st).entities.map Prod.fst) =
        (rows.filterMap (rowCanonKey canon)).foldl dedupStep (st.entities.map Prod.fst) := by
  intro rows
  induction rows with
  | nil => intro st; rfl
  | cons r rows ih =>
    intro st
    simp only [List.foldl_cons, List.filterMap_cons]
    cases hk : rowCanonKey canon r with
    | some k =>
      rw [ih]
      have h2 := processRow_entities_keys canon st r
      rw [hk] at h2
      rw [h2]
      dsimp only
      rw [List.foldl_cons]
    | none =>
      rw [ih]
      have h2 := processRow_entities_keys canon st r
      rw [hk] at h2
      rw [h2]

theorem foldl_buildings_keys (canon : List (Str × Str)) :
    ∀ (rows : List Row) (st : BuildState),
      ((rows.foldl (processRow canon) st).buildings.map Prod.fst) =
        (rows.filterMap binVal).foldl dedupStep (st.buildings.map Prod.fst) := by
  intro rows
  induction rows with
  | nil => intro st; rfl
  | cons r rows ih =>
    intro st
    simp only [List.foldl_cons, List.filterMap_cons]
    cases hk : binVal r with
    | some k =>
      rw [ih]
      have h2 := processRow_buildings_keys canon st r
      rw [hk] at h2
      rw [h2]
      dsimp only
      rw [List.foldl_cons]
    | none =>
      rw [ih]
      have h2 := processRow_buildings_keys canon st r
      rw [hk] at h2
      rw [h2]

theorem assembleState_people_keys (rows : List Row) :
    (assembleState rows).people.map Prod.fst = dedupF (rows.filterMap rowPersonKey) := by
  unfold assembleState dedupF
  rw [foldl_people_keys]
  rfl

theorem assembleState_entities_keys (rows : List Row) :
    (assembleState rows).entities.map Prod.fst =
      dedupF (rows.filterMap (rowCanonKey (canonOf rows))) := by
  unfold assembleState dedupF
  rw [foldl_entities_keys]
  rfl

theorem assembleState_buildings_keys (rows : List Row) :
    (assembleState rows).buildings.map Prod.fst = dedupF (rows.filterMap binVal) := by
  unfold assembleState dedupF
  rw [foldl_buildings_keys]
  rfl

theorem filterMap_personNode (l : List ((Str × Str) × PInfo)) :
    (l.map personNode).filterMap nodePersonId = l.map (fun p => personId p.1.1 p.1.2) := by
  induction l with
  | nil => rfl
  | cons p l ih =>
    simp only [List.map_cons, List.filterMap_cons]
    rw [ih]
    rfl

theorem filterMap_entityNode_person (l : List (Str × EInfo)) :
    (l.map entityNode).filterMap nodePersonId = [] := by
  induction l with
  | nil => rfl
  | cons p l ih =>
    simp only [List.map_cons, List.filterMap_cons]
    rw [← ih]
    rfl

theorem filterMap_buildingNode_person (l : List (Str × BInfo)) :
    (l.map buildingNode).filterMap nodePersonId = [] := by
  induction l with
  | nil => rfl
  | cons p l ih =>
    simp only [List.map_cons, List.filterMap_cons]
    rw [← ih]
    rfl

theorem filterMap_entityNode (l : List (Str × EInfo)) :
    (l.map entityNode).filterMap nodeEntityId = l.map (fun p => entityIdStr p.1) := by
  induction l with
  | nil => rfl
  | cons p l ih =>
    simp only [List.map_cons, List.filterMap_cons]
    rw [ih]
    rfl

theorem filterMap_personNode_entity (l : List ((Str × Str) × PInfo)) :
    (l.map personNode).filterMap nodeEntityId = [] := by
  induction l with
  | nil => rfl
  | cons p l ih =>
    simp only [List.map_cons, List.filterMap_cons]
    rw [← ih]
    rfl

theorem filterMap_buildingNode_entity (l : List (Str × BInfo)) :
    (l.map buildingNode).filterMap nodeEntityId = [] := by
  induction l with
  | nil => rfl
  | cons p l ih =>
    simp only [List.map_cons, List.filterMap_cons]
    rw [← ih]
    rfl

theorem filterMap_buildingNode (l : List (Str × BInfo)) :
    (l.map buildingNode).filterMap nodeBuildingId = l.map (fun p => buildingId p.1) := by
  induction l with
  | nil => rfl
  | cons p l ih =>
    simp only [List.map_cons, List.filterMap_cons]
    rw [ih]
    rfl

theorem filterMap_personNode_building (l : List ((Str × Str) × PInfo)) :
    (l.map personNode).filterMap nodeBuildingId = [] := by
  induction l with
  | nil => rfl
  | cons p l ih =>
    simp only [List.map_cons, List.filterMap_cons]
    rw [← ih]
    rfl

theorem filterMap_entityNode_building (l : List (Str × EInfo)) :
    (l.map entityNode).filterMap nodeBuildingId = [] := by
  induction l with
  | nil => rfl
  | cons p l ih =>
    simp only [List.map_cons, List.filterMap_cons]
    rw [← ih]
    rfl

/-- Claim C4: the graph contains exactly one person node per distinct
PersonKey (uppercased first/last pair) observed in the rows, exactly one
entity node per distinct canonical label, and exactly one building node per
distinct (truthy) building id: each id list equals the map of the node-id
format over the duplicate-free (`nodup_dedupF`) list of distinct observed
keys. -/
theorem buildGraph_node_uniqueness (rows : List Row) (name : Str) :
    personIds (buildGraph rows name) =
      (dedupF (rows.filterMap rowPersonKey)).map (fun k => personId k.1 k.2) ∧
    entityIds (buildGraph rows name) =
      (dedupF (rows.filterMap (rowCanonKey (canonOf rows)))).map entityIdStr ∧
    buildingIds (buildGraph rows name) =
      (dedupF (rows.filterMap binVal)).map buildingId := by
  refine ⟨?_, ?_, ?_⟩
  · unfold personIds buildGraph
    dsimp only
    rw [List.filterMap_append, List.filterMap_append, filterMap_personNode,
      filterMap_entityNode_person, filterMap_buildingNode_person, List.append_nil,
      List.append_nil]
    have hc : (fun p : (Str × Str) × PInfo => personId p.1.1 p.1.2) =
        ((fun k : Str × Str => personId k.1 k.2) ∘ Prod.fst) := rfl
    rw [hc, ← List.map_map, assembleState_people_keys]
  · unfold entityIds buildGraph
    dsimp only
    rw [List.filterMap_append, List.filterMap_append, filterMap_entityNode,
      filterMap_personNode_entity, filterMap_buildingNode_entity, List.nil_append,
      List.append_nil]
    have hc : (fun p : Str × EInfo => entityIdStr p.1) = (entityIdStr ∘ Prod.fst) := rfl
    rw [hc, ← List.map_map, assembleState_entities_keys]
  · unfold buildingIds buildGraph
    dsimp only
    rw [List.filterMap_append, List.filterMap_append, filterMap_buildingNode,
      filterMap_personNode_building, filterMap_entityNode_building, List.nil_append,
      List.nil_append]
    have hc : (fun p : Str × BInfo => buildingId p.1) = (buildingId ∘ Prod.fst) := rfl
    rw [hc, ← List.map_map, assembleState_buildings_keys]

/-! ### Claim C5: every edge endpoint is a node of the same graph -/

theorem mem_dedupStep_of {α : Type} [DecidableEq α] (l : List α) (x k : α) (h : k ∈ l) :
    k ∈ dedupStep l x := by
  unfold dedupStep
  split
  next => exact h
  next => exact List.mem_append_left _ h

theorem self_mem_dedupStep {α : Type} [DecidableEq α] (l : List α) (x : α) :
    x ∈ dedupStep l x := by
  unfold dedupStep
  split
  next h => exact h
  next => exact List.mem_append_right _ (by simp)

theorem personId_mem_stateIds (st : BuildState) (k : Str × Str)
    (h : k ∈ st.people.map Prod.fst) : personId k.1 k.2 ∈ stateIds st := by
  rcases List.mem_map.mp h with ⟨p, hp, hpk⟩
  unfold stateIds
  refine List.mem_append.mpr (Or.inl (List.mem_append.mpr (Or.inl ?_)))
  exact List.mem_map.mpr ⟨p, hp, by rw [hpk]⟩

theorem entityIdStr_mem_stateIds (st : BuildState) (k : Str)
    (h : k ∈ st.entities.map Prod.fst) : entityIdStr k ∈ stateIds st := by
  rcases List.mem_map.mp h with ⟨p, hp, hpk⟩
  unfold stateIds
  refine List.mem_append.mpr (Or.inl (List.mem_append.mpr (Or.inr ?_)))
  exact List.mem_map.mpr ⟨p, hp, by rw [hpk]⟩

theorem buildingId_mem_stateIds (st : BuildState) (k : Str)
    (h : k ∈ st.buildings.map Prod.fst) : buildingId k ∈ stateIds st := by
  rcases List.mem_map.mp h with ⟨p, hp, hpk⟩
  unfold stateIds
  refine List.mem_append.mpr (Or.inr ?_)
  exact List.mem_map.mpr ⟨p, hp, by rw [hpk]⟩

theorem stateIds_cases (st : BuildState) (x : Str) (h : x ∈ stateIds st) :
    (∃ k ∈ st.people.map Prod.fst, x = personId k.1 k.2) ∨
    (∃ k ∈ st.entities.map Prod.fst, x = entityIdStr k) ∨
    (∃ k ∈ st.buildings.map Prod.fst, x = buildingId k) := by
  unfold stateIds at h
  rcases List.mem_append.mp h with h2 | h2
  · rcases List.mem_append.mp h2 with h3 | h3
    · rcases List.mem_map.mp h3 with ⟨p, hp, hpx⟩
      exact Or.inl ⟨p.1, List.mem_map.mpr ⟨p, hp, rfl⟩, hpx.symm⟩
    · rcases List.mem_map.mp h3 with ⟨p, hp, hpx⟩
      exact Or.inr (Or.inl ⟨p.1, List.mem_map.mpr ⟨p, hp, rfl⟩, hpx.symm⟩)
  · rcases List.mem_map.mp h2 with ⟨p, hp, hpx⟩
    exact Or.inr (Or.inr ⟨p.1, List.mem_map.mpr ⟨p, hp, rfl⟩, hpx.symm⟩)

theorem stateIds_mono (st st2 : BuildState)
    (hp : ∀ k ∈ st.people.map Prod.fst, k ∈ st2.people.map Prod.fst)
    (he : ∀ k ∈ st.entities.map Prod.fst, k ∈ st2.entities.map Prod.fst)
    (hb : ∀ k ∈ st.buildings.map Prod.fst, k ∈ st2.buildings.map Prod.fst) :
    ∀ x ∈ stateIds st, x ∈ stateIds st2 := by
  intro x hx
  rcases stateIds_cases st x hx with ⟨k, hk, rfl⟩ | ⟨k, hk, rfl⟩ | ⟨k, hk, rfl⟩
  · exact personId_mem_stateIds _ _ (hp k hk)
  · exact entityIdStr_mem_stateIds _ _ (he k hk)
  · exact buildingId_mem_stateIds _ _ (hb k hk)

theorem keys_mono_trackBuilding (st : BuildState) (r : Row) :
    ∀ k ∈ st.buildings.map Prod.fst, k ∈ (trackBuilding st r).buildings.map Prod.fst := by
  intro k hk
  rw [trackBuilding_buildings_keys]
  cases hb : binVal r with
  | none => exact hk
  | some b => exact mem_dedupStep_of _ _ _ hk

theorem keys_mono_trackPerson (st : BuildState) (r : Row) :
    ∀ k ∈ st.people.map Prod.fst, k ∈ (trackPerson st r).people.map Prod.fst := by
  intro k hk
  rw [trackPerson_people_keys]
  cases hp : rowPersonKey r with
  | none => exact hk
  | some p => exact mem_dedupStep_of _ _ _ hk

theorem keys_mono_trackEntity (canon : List (Str × Str)) (st : BuildState) (r : Row) :
    ∀ k ∈ st.entities.map Prod.fst, k ∈ (trackEntity canon st r).entities.map Prod.fst := by
  intro k hk
  rw [trackEntity_entities_keys]
  cases hc : rowCanonKey canon r with
  | none => exact hk
  | some q => exact mem_dedupStep_of _ _ _ hk

theorem stateIds_mono_trackBuilding (st : BuildState) (r : Row) :
    ∀ x ∈ stateIds st, x ∈ stateIds (trackBuilding st r) := by
  refine stateIds_mono st _ ?_ ?_ (keys_mono_trackBuilding st r)
  · rw [trackBuilding_people]; exact fun k hk => hk
  · rw [trackBuilding_entities]; exact fun k hk => hk

theorem stateIds_mono_trackPerson (st : BuildState) (r : Row) :
    ∀ x ∈ stateIds st, x ∈ stateIds (trackPerson st r) := by
  refine stateIds_mono st _ (keys_mono_trackPerson st r) ?_ ?_
  · rw [trackPerson_entities]; exact fun k hk => hk
  · rw [trackPerson_buildings]; exact fun k hk => hk

theorem stateIds_mono_trackEntity (canon : List (Str × Str)) (st : BuildState) (r : Row) :
    ∀ x ∈ stateIds st, x ∈ stateIds (trackEntity canon st r) := by
  refine stateIds_mono st _ ?_ (keys_mono_trackEntity canon st r) ?_
  · rw [trackEntity_people]; exact fun k hk => hk
  · rw [trackEntity_buildings]; exact fun k hk => hk

theorem trackBuilding_ensures (st : BuildState) (r : Row) :
    ∀ b, binVal r = some b → b ∈ (trackBuilding st r).buildings.map Prod.fst := by
  intro b hb
  rw [trackBuilding_buildings_keys, hb]
  exact self_mem_dedupStep _ _

theorem trackPerson_ensures (st : BuildState) (r : Row)
    (hp : fnOf r ≠ [] ∧ lnOf r ≠ []) :
    (fnOf r, lnOf r) ∈ (trackPerson st r).people.map Prod.fst := by
  have h := trackPerson_people_keys st r
  unfold rowPersonKey at h
  rw [if_pos hp] at h
  rw [h]
  exact self_mem_dedupStep _ _

theorem trackEntity_closed (canon : List (Str × Str)) (st : BuildState) (r : Row)
    (hcl : ∀ e ∈ st.edges, e.source ∈ stateIds st ∧ e.target ∈ stateIds st)
    (hbm : ∀ b, binVal r = some b → b ∈ st.buildings.map Prod.fst)
    (hpm : fnOf r ≠ [] ∧ lnOf r ≠ [] → (fnOf r, lnOf r) ∈ st.people.map Prod.fst) :
    ∀ e ∈ (trackEntity canon st r).edges,
      e.source ∈ stateIds (trackEntity canon st r) ∧
      e.target ∈ stateIds (trackEntity canon st r) := by
  intro e he
  have hmono := stateIds_mono_trackEntity canon st r
  have hent : (alookup canon (corpOf r)).getD (corpOf r) ∈
      (trackEntity canon st r).entities.map Prod.fst → True := fun _ => trivial
  by_cases hc : corpOf r ≠ []
  · have hekey : (alookup canon (corpOf r)).getD (corpOf r) ∈
        (trackEntity canon st r).entities.map Prod.fst := by
      rw [trackEntity_entities_keys]
      have : rowCanonKey canon r = some ((alookup canon (corpOf r)).getD (corpOf r)) := by
        unfold rowCanonKey
        rw [if_pos hc]
      rw [this]
      exact self_mem_dedupStep _ _
    have hesrc : entityIdStr ((alookup canon (corpOf r)).getD (corpOf r)) ∈
        stateIds (trackEntity canon st r) := entityIdStr_mem_stateIds _ _ hekey
    unfold trackEntity at he ⊢
    rw [if_pos hc] at he ⊢
    cases hb : binVal r with
    | some b =>
      rw [hb] at he
      dsimp only at he
      rcases List.mem_append.mp he with h2 | h2
      · rcases List.mem_append.mp h2 with h3 | h3
        · have := hcl e h3
          constructor
          · have h4 := hmono e.source this.1
            unfold trackEntity at h4
            rw [if_pos hc, hb] at h4
            exact h4
          · have h4 := hmono e.target this.2
            unfold trackEntity at h4
            rw [if_pos hc, hb] at h4
            exact h4
        · rw [List.mem_singleton] at h3
          rw [h3]
          constructor
          · have h4 := hesrc
            unfold trackEntity at h4
            rw [if_pos hc, hb] at h4
            exact h4
          · have hbmem : buildingId b ∈ stateIds st :=
              buildingId_mem_stateIds _ _ (hbm b hb)
            have h4 := hmono _ hbmem
            unfold trackEntity at h4
            rw [if_pos hc, hb] at h4
            exact h4
      · by_cases hp : fnOf r ≠ [] ∧ lnOf r ≠ []
        · rw [if_pos hp, List.mem_singleton] at h2
          rw [h2]
          constructor
          · have hpmem : personId (fnOf r) (lnOf r) ∈ stateIds st :=
              personId_mem_stateIds _ (fnOf r, lnOf r) (hpm hp)
            have h4 := hmono _ hpmem
            unfold trackEntity at h4
            rw [if_pos hc, hb] at h4
            exact h4
          · have h4 := hesrc
            unfold trackEntity at h4
            rw [if_pos hc, hb] at h4
            exact h4
        · rw [if_neg hp] at h2
          exact absurd h2 (List.not_mem_nil e)
    | none =>
      rw [hb] at he
      dsimp only at he
      rcases List.mem_append.mp he with h2 | h2
      · have := hcl e h2
        constructor
        · have h4 := hmono e.source this.1
          unfold trackEntity at h4
          rw [if_pos hc, hb] at h4
          exact h4
        · have h4 := hmono e.target this.2
          unfold trackEntity at h4
          rw [if_pos hc, hb] at h4
          exact h4
      · by_cases hp : fnOf r ≠ [] ∧ lnOf r ≠ []
        · rw [if_pos hp, List.mem_singleton] at h2
          rw [h2]
          constructor
          · have hpmem : personId (fnOf r) (lnOf r) ∈ stateIds st :=
              personId_mem_stateIds _ (fnOf r, lnOf r) (hpm hp)
            have h4 := hmono _ hpmem
            unfold trackEntity at h4
            rw [if_pos hc, hb] at h4
            exact h4
          · have h4 := hesrc
            unfold trackEntity at h4
            rw [if_pos hc, hb] at h4
            exact h4
        · rw [if_neg hp] at h2
          exact absurd h2 (List.not_mem_nil e)
  · unfold trackEntity at he ⊢
    rw [if_neg hc] at he ⊢
    exact hcl e he

theorem trackPerson_closed (st : BuildState) (r : Row)
    (hcl : ∀ e ∈ st.edges, e.source ∈ stateIds st ∧ e.target ∈ stateIds st)
    (hbm : ∀ b, binVal r = some b → b ∈ st.buildings.map Prod.fst) :
    ∀ e ∈ (trackPerson st r).edges,
      e.source ∈ stateIds (trackPerson st r) ∧ e.target ∈ stateIds (trackPerson st r) := by
  intro e he
  have hmono := stateIds_mono_trackPerson st r
  by_cases hp : fnOf r ≠ [] ∧ lnOf r ≠ []
  · unfold trackPerson at he
    rw [if_pos hp] at he
    cases hb : binVal r with
    | some b =>
      rw [hb] at he
      dsimp only at he
      rcases List.mem_append.mp he with h | h
      · exact ⟨hmono _ (hcl e h).1, hmono _ (hcl e h).2⟩
      · rw [List.mem_singleton] at h
        rw [h]
        constructor
        · exact personId_mem_stateIds (trackPerson st r) (fnOf r, lnOf r)
            (trackPerson_ensures st r hp)
        · exact hmono _ (buildingId_mem_stateIds st b (hbm b hb))
    | none =>
      rw [hb] at he
      dsimp only at he
      exact ⟨hmono _ (hcl e he).1, hmono _ (hcl e he).2⟩
  · unfold trackPerson at he
    rw [if_neg hp] at he
    exact ⟨hmono _ (hcl e he).1, hmono _ (hcl e he).2⟩

theorem processRow_closed (canon : List (Str × Str)) (st : BuildState) (r : Row)
    (hcl : ∀ e ∈ st.edges, e.source ∈ stateIds st ∧ e.target ∈ stateIds st) :
    ∀ e ∈ (processRow canon st r).edges,
      e.source ∈ stateIds (processRow canon st r) ∧
      e.target ∈ stateIds (processRow canon st r) := by
  have hclB : ∀ e ∈ (trackBuilding st r).edges,
      e.source ∈ stateIds (trackBuilding st r) ∧
      e.target ∈ stateIds (trackBuilding st r) := by
    intro e he
    rw [trackBuilding_edges] at he
    exact ⟨stateIds_mono_trackBuilding st r _ (hcl e he).1,
      stateIds_mono_trackBuilding st r _ (hcl e he).2⟩
  have hclP := trackPerson_closed (trackBuilding st r) r hclB (trackBuilding_ensures st r)
  have hbmP : ∀ b, binVal r = some b →
      b ∈ (trackPerson (trackBuilding st r) r).buildings.map Prod.fst := by
    intro b hb
    rw [trackPerson_buildings]
    exact trackBuilding_ensures st r b hb
  have hpmP : fnOf r ≠ [] ∧ lnOf r ≠ [] →
      (fnOf r, lnOf r) ∈ (trackPerson (trackBuilding st r) r).people.map Prod.fst :=
    fun hp => trackPerson_ensures _ r hp
  unfold processRow
  exact trackEntity_closed canon _ r hclP hbmP hpmP

theorem foldl_closed (canon : List (Str × Str)) :
    ∀ (rows : List Row) (st : BuildState),
      (∀ e ∈ st.edges, e.source ∈ stateIds st ∧ e.target ∈ stateIds st) →
      ∀ e ∈ (rows.foldl (processRow canon) st).edges,
        e.source ∈ stateIds (rows.foldl (processRow canon) st) ∧
        e.target ∈ stateIds (rows.foldl (processRow canon) st) := by
  intro rows
  induction rows with
  | nil => intro st h; exact h
  | cons r rows ih =>
    intro st h
    simp only [List.foldl_cons]
    exact ih _ (processRow_closed canon st r h)

theorem assembleState_closed (rows : List Row) :
    ∀ e ∈ (assembleState rows).edges,
      e.source ∈ stateIds (assembleState rows) ∧
      e.target ∈ stateIds (assembleState rows) := by
  unfold assembleState
  exact foldl_closed (canonOf rows) rows _ (fun e he => absurd he (List.not_mem_nil e))

theorem nodeIds_buildGraph (rows : List Row) (name : Str) :
    (buildGraph rows name).nodes.map nodeId = stateIds (assembleState rows) := by
  unfold buildGraph stateIds
  dsimp only
  rw [List.map_append, List.map_append, List.map_map, List.map_map, List.map_map]
  rfl

/-- Claim C5: every edge of the graph built by `get_owner_network` has both
endpoint ids among the ids of the graph's own nodes — each edge is emitted
only after the person, entity, and building dictionaries that generate those
node ids contain the corresponding keys. -/
theorem buildGraph_edge_closure (rows : List Row) (name : Str) :
    ∀ e ∈ (buildGraph rows name).edges,
      e.source ∈ (buildGraph rows name).nodes.map nodeId ∧
      e.target ∈ (buildGraph rows name).nodes.map nodeId := by
  intro e he
  have hedges : (buildGraph rows name).edges = dedupF (assembleState rows).edges := rfl
  rw [hedges, mem_dedupF] at he
  rw [nodeIds_buildGraph]
  exact assembleState_closed rows e he

/-- Witness for C5: in a one-row graph the person-to-building edge's two
endpoints are node ids of the same graph. -/
theorem buildGraph_edge_closure_witness :
    (Edge.mk (personId ("JO".data) ("DOE".data)) (buildingId ("B1".data)) ("Agent".data)).source
        ∈ (buildGraph [Row.mk none (some ("Agent".data)) none none (some ("JO".data))
            (some ("DOE".data)) (some ("B1".data)) none none none none none none]
            ("x".data)).nodes.map nodeId ∧
      (Edge.mk (personId ("JO".data) ("DOE".data)) (buildingId ("B1".data))
          ("Agent".data)).target
        ∈ (buildGraph [Row.mk none (some ("Agent".data)) none none (some ("JO".data))
            (some ("DOE".data)) (some ("B1".data)) none none none none none none]
            ("x".data)).nodes.map nodeId :=
  buildGraph_edge_closure
    [Row.mk none (some ("Agent".data)) none none (some ("JO".data)) (some ("DOE".data))
      (some ("B1".data)) none none none none none none] ("x".data)
    (Edge.mk (personId ("JO".data) ("DOE".data)) (buildingId ("B1".data)) ("Agent".data))
    (by decide)

/-! ### Claim C1: the canonical mapping over the input names -/

theorem addVariant_preserves (km : List (Str × List Str)) (k0 m k : Str) (vs : List Str)
    (h : (k, vs) ∈ km) : ∃ vs2, (k, vs2) ∈ addVariant km k0 m ∧ vs ⊆ vs2 := by
  unfold addVariant
  by_cases hk : k = k0
  · refine ⟨vs ++ [m], ?_, List.subset_append_left _ _⟩
    have h2 := List.mem_map_of_mem
      (fun p : Str × List Str => if p.1 = k0 then (p.1, p.2 ++ [m]) else p) h
    have heq : (fun p : Str × List Str => if p.1 = k0 then (p.1, p.2 ++ [m]) else p) (k, vs) =
        (k, vs ++ [m]) := by
      dsimp only
      rw [if_pos hk]
    rw [heq] at h2
    exact h2
  · refine ⟨vs, ?_, fun x hx => hx⟩
    have h2 := List.mem_map_of_mem
      (fun p : Str × List Str => if p.1 = k0 then (p.1, p.2 ++ [m]) else p) h
    have heq : (fun p : Str × List Str => if p.1 = k0 then (p.1, p.2 ++ [m]) else p) (k, vs) =
        (k, vs) := by
      dsimp only
      rw [if_neg hk]
    rw [heq] at h2
    exact h2

theorem addVariant_adds (km : List (Str × List Str)) (ek m : Str) (vs : List Str)
    (h : (ek, vs) ∈ km) : (ek, vs ++ [m]) ∈ addVariant km ek m := by
  unfold addVariant
  have h2 := List.mem_map_of_mem
    (fun p : Str × List Str => if p.1 = ek then (p.1, p.2 ++ [m]) else p) h
  have heq : (fun p : Str × List Str => if p.1 = ek then (p.1, p.2 ++ [m]) else p) (ek, vs) =
      (ek, vs ++ [m]) := by
    dsimp only
    rw [if_pos rfl]
  rw [heq] at h2
  exact h2

theorem findCluster_mem (k : Str) :
    ∀ (km : List (Str × List Str)) (ek : Str),
      findCluster k km = some ek → ∃ vs, (ek, vs) ∈ km := by
  intro km
  induction km with
  | nil => intro ek h; simp [findCluster] at h
  | cons p km ih =>
    intro ek h
    obtain ⟨pk, pv⟩ := p
    unfold findCluster at h
    by_cases h1 : k = pk
    · rw [if_pos h1] at h
      injection h with h
      exact ⟨pv, by rw [← h]; exact List.mem_cons_self _ _⟩
    · rw [if_neg h1] at h
      by_cases h2 : simGT k pk = true
      · rw [if_pos h2] at h
        injection h with h
        exact ⟨pv, by rw [← h]; exact List.mem_cons_self _ _⟩
      · rw [if_neg h2] at h
        rcases ih ek h with ⟨vs, hvs⟩
        exact ⟨vs, List.mem_cons_of_mem _ hvs⟩

theorem clusterStep_preserves (km : List (Str × List Str)) (m k : Str) (vs : List Str)
    (h : (k, vs) ∈ km) : ∃ vs2, (k, vs2) ∈ clusterStep km m ∧ vs ⊆ vs2 := by
  unfold clusterStep
  by_cases hm : m = []
  · rw [if_pos hm]
    exact ⟨vs, h, fun x hx => hx⟩
  · rw [if_neg hm]
    dsimp only
    by_cases hk : fuzzyClusterKey m = []
    · rw [if_pos hk]
      exact ⟨vs, h, fun x hx => hx⟩
    · rw [if_neg hk]
      cases hf : findCluster (fuzzyClusterKey m) km with
      | some ek => exact addVariant_preserves km ek m k vs h
      | none => exact ⟨vs, List.mem_append_left _ h, fun x hx => hx⟩

theorem clusterStep_adds (km : List (Str × List Str)) (m : Str) (hm : m ≠ [])
    (hk : fuzzyClusterKey m ≠ []) :
    ∃ k vs, (k, vs) ∈ clusterStep km m ∧ m ∈ vs := by
  unfold clusterStep
  rw [if_neg hm]
  dsimp only
  rw [if_neg hk]
  cases hf : findCluster (fuzzyClusterKey m) km with
  | some ek =>
    rcases findCluster_mem _ km ek hf with ⟨vs, hvs⟩
    exact ⟨ek, vs ++ [m], addVariant_adds km ek m vs hvs,
      List.mem_append_right _ (by simp)⟩
  | none =>
    exact ⟨fuzzyClusterKey m, [m], List.mem_append_right _ (by simp), by simp⟩

theorem foldl_clusterStep_preserves :
    ∀ (l : List Str) (km : List (Str × List Str)) (k : Str) (vs : List Str),
      (k, vs) ∈ km → ∃ vs2, (k, vs2) ∈ l.foldl clusterStep km ∧ vs ⊆ vs2 := by
  intro l
  induction l with
  | nil => intro km k vs h; exact ⟨vs, h, fun x hx => hx⟩
  | cons m l ih =>
    intro km k vs h
    simp only [List.foldl_cons]
    rcases clusterStep_preserves km m k vs h with ⟨vs2, h2, hsub⟩
    rcases ih _ k vs2 h2 with ⟨vs3, h3, hsub2⟩
    exact ⟨vs3, h3, fun x hx => hsub2 (hsub hx)⟩

theorem mem_keymap (names : List Str) (n : Str) (hmem : n ∈ names) (hne : n ≠ [])
    (hk : fuzzyClusterKey n ≠ []) :
    ∃ k vs, (k, vs) ∈ names.foldl clusterStep [] ∧ n ∈ vs := by
  rcases List.append_of_mem hmem with ⟨l1, l2, rfl⟩
  rw [List.foldl_append]
  simp only [List.foldl_cons]
  rcases clusterStep_adds (l1.foldl clusterStep []) n hne hk with ⟨k, vs, hkv, hn⟩
  rcases foldl_clusterStep_preserves l2 _ k vs hkv with ⟨vs2, h2, hsub⟩
  exact ⟨k, vs2, h2, hsub hn⟩

theorem alookup_isSome_dictUpd {κ ν : Type} [DecidableEq κ] (m : List (κ × ν)) (k : κ)
    (v : ν) (a : κ) (h : (alookup m a).isSome = true) :
    (alookup (dictUpd m k v) a).isSome = true := by
  by_cases hak : a = k
  · rw [hak, alookup_dictUpd_self]
    rfl
  · rw [alookup_dictUpd_other _ _ _ _ hak]
    exact h

theorem innerFold_preserves (c : Str) :
    ∀ (vs : List Str) (res : List (Str × Str)) (a : Str),
      (alookup res a).isSome = true →
      (alookup (vs.foldl (fun r v => dictUpd r v c) res) a).isSome = true := by
  intro vs
  induction vs with
  | nil => intro res a h; exact h
  | cons w vs ih =>
    intro res a h
    simp only [List.foldl_cons]
    exact ih _ a (alookup_isSome_dictUpd _ _ _ _ h)

theorem innerFold_adds (c : Str) :
    ∀ (vs : List Str) (res : List (Str × Str)) (v : Str),
      v ∈ vs → (alookup (vs.foldl (fun r v => dictUpd r v c) res) v).isSome = true := by
  intro vs
  induction vs with
  | nil => intro res v h; simp at h
  | cons w vs ih =>
    intro res v h
    simp only [List.foldl_cons]
    rcases List.mem_cons.mp h with h | h
    · subst h
      refine innerFold_preserves c vs _ v ?_
      rw [alookup_dictUpd_self]
      rfl
    · exact ih _ v h

theorem outerFold_preserves :
    ∀ (km : List (Str × List Str)) (res : List (Str × Str)) (a : Str),
      (alookup res a).isSome = true →
      (alookup (km.foldl
        (fun res p => p.2.foldl (fun r v => dictUpd r v (mostCommonVariant p.2)) res)
        res) a).isSome = true := by
  intro km
  induction km with
  | nil => intro res a h; exact h
  | cons p km ih =>
    intro res a h
    simp only [List.foldl_cons]
    exact ih _ a (innerFold_preserves _ p.2 res a h)

theorem outerFold_adds :
    ∀ (km : List (Str × List Str)) (res : List (Str × Str)) (k : Str) (vs : List Str)
      (v : Str), (k, vs) ∈ km → v ∈ vs →
      (alookup (km.foldl
        (fun res p => p.2.foldl (fun r v => dictUpd r v (mostCommonVariant p.2)) res)
        res) v).isSome = true := by
  intro km
  induction km with
  | nil => intro res k vs v h _; simp at h
  | cons p km ih =>
    intro res k vs v h hv
    simp only [List.foldl_cons]
    rcases List.mem_cons.mp h with h | h
    · have hvp : v ∈ p.2 := by
        rw [← h]
        exact hv
      exact outerFold_preserves km _ v (innerFold_adds _ p.2 res v hvp)
    · exact ih _ k vs v h hv

theorem dictUpd_keys_nodup {κ ν : Type} [DecidableEq κ] (m : List (κ × ν)) (k : κ) (v : ν)
    (h : (m.map Prod.fst).Nodup) : ((dictUpd m k v).map Prod.fst).Nodup := by
  rw [dictUpd_keys]
  unfold dedupStep
  split
  next => exact h
  next hk =>
    simp only [List.nodup_append, List.nodup_singleton, List.disjoint_singleton]
    exact ⟨h, trivial, hk⟩

theorem innerFold_nodup (c : Str) :
    ∀ (vs : List Str) (res : List (Str × Str)),
      (res.map Prod.fst).Nodup →
      (((vs.foldl (fun r v => dictUpd r v c) res)).map Prod.fst).Nodup := by
  intro vs
  induction vs with
  | nil => intro res h; exact h
  | cons w vs ih =>
    intro res h
    simp only [List.foldl_cons]
    exact ih _ (dictUpd_keys_nodup _ _ _ h)

theorem outerFold_nodup :
    ∀ (km : List (Str × List Str)) (res : List (Str × Str)),
      (res.map Prod.fst).Nodup →
      ((km.foldl
        (fun res p => p.2.foldl (fun r v => dictUpd r v (mostCommonVariant p.2)) res)
        res).map Prod.fst).Nodup := by
  intro km
  induction km with
  | nil => intro res h; exact h
  | cons p km ih =>
    intro res h
    simp only [List.foldl_cons]
    exact ih _ (innerFold_nodup _ p.2 res h)

/-- Counterexample to C1 as stated: the name `"LLC"` normalizes to the empty
CanonicalKey, and `_cluster_entities` skips it entirely, so it does not
appear as a key of the returned mapping (the caller's
`corp_canonical.get(corp, corp)` supplies the identity fallback instead). -/
theorem clusterEntities_empty_key_missing :
    alookup (clusterEntities [("LLC".data)]) ("LLC".data) = none := by decide

/-- Claim C1 (amended): the mapping returned by `_cluster_entities` is a
total function over the input names that are non-empty and have a non-empty
CanonicalKey: each such name appears as a key (with a single value — the
key list of the returned dict has no duplicates); names that are empty or
normalize to an empty key are omitted from the mapping, not mapped to
themselves. -/
theorem clusterEntities_total_on_clusterable (names : List Str) (n : Str)
    (hmem : n ∈ names) (hne : n ≠ []) (hkey : fuzzyClusterKey n ≠ []) :
    ((clusterEntities names).map Prod.fst).Nodup ∧
      ∃ c, alookup (clusterEntities names) n = some c := by
  unfold clusterEntities
  constructor
  · exact outerFold_nodup _ [] (by simp)
  · rcases mem_keymap names n hmem hne hkey with ⟨k, vs, hkv, hn⟩
    have h := outerFold_adds (names.foldl clusterStep []) [] k vs n hkv hn
    rcases Option.isSome_iff_exists.mp h with ⟨c, hc⟩
    exact ⟨c, hc⟩

/-- Witness for C1 at a concrete clusterable name. -/
theorem clusterEntities_total_witness :
    ((clusterEntities [("ACME".data)]).map Prod.fst).Nodup ∧
      ∃ c, alookup (clusterEntities [("ACME".data)]) ("ACME".data) = some c :=
  clusterEntities_total_on_clusterable [("ACME".data)] ("ACME".data) (by simp)
    (by decide) (by decide)

/-! ### Claim C3: the 0.85 similarity threshold is strict -/

theorem mostCommonVariant_single (x : Str) : mostCommonVariant [x] = x := by
  unfold mostCommonVariant dedupF
  simp only [List.foldl_cons, List.foldl_nil]
  unfold dedupStep
  rw [if_neg (List.not_mem_nil x)]
  simp only [List.nil_append, List.headD, List.foldl_cons, List.foldl_nil]
  rw [if_neg (lt_irrefl _)]

theorem mostCommonVariant_pair (a b : Str) (hab : a ≠ b) : mostCommonVariant [a, b] = a := by
  unfold mostCommonVariant
  have hd : dedupF [a, b] = [a, b] := by
    unfold dedupF
    simp only [List.foldl_cons, List.foldl_nil]
    unfold dedupStep
    rw [if_neg (List.not_mem_nil a)]
    simp only [List.nil_append]
    rw [if_neg (by simp [Ne.symm hab])]
    rfl
  rw [hd]
  simp only [List.foldl_cons, List.foldl_nil, List.headD]
  rw [if_neg (lt_irrefl _)]
  have hca : ([a, b] : List Str).count a = 1 := by
    simp [List.count_cons, hab, Ne.symm hab]
  have hcb : ([a, b] : List Str).count b = 1 := by
    simp [List.count_cons, hab, Ne.symm hab]
  rw [hca, hcb]
  rw [if_neg (lt_irrefl _)]

/-- Counterexample to C3 as stated: these two names are their own
CanonicalKeys with similarity ratio exactly 17/20 = 0.85, yet
`_cluster_entities` does not merge them (the code requires
`ratio > 0.85`, strictly), so they form separate clusters. -/
theorem cluster_boundary_no_merge :
    simRatioQ (fuzzyClusterKey ("AAAAAAAAAAAAAAAAACCC".data))
        (fuzzyClusterKey ("AAAAAAAAAAAAAAAAABBB".data)) = 17/20 ∧
      clusterEntities [("AAAAAAAAAAAAAAAAABBB".data), ("AAAAAAAAAAAAAAAAACCC".data)] =
        [(("AAAAAAAAAAAAAAAAABBB".data), ("AAAAAAAAAAAAAAAAABBB".data)),
         (("AAAAAAAAAAAAAAAAACCC".data), ("AAAAAAAAAAAAAAAAACCC".data))] := by
  constructor
  · have hk1 : fuzzyClusterKey ("AAAAAAAAAAAAAAAAACCC".data) =
        ("AAAAAAAAAAAAAAAAACCC".data) := by decide
    have hk2 : fuzzyClusterKey ("AAAAAAAAAAAAAAAAABBB".data) =
        ("AAAAAAAAAAAAAAAAABBB".data) := by decide
    rw [hk1, hk2]
    have hm : matchTotal ("AAAAAAAAAAAAAAAAACCC".data) ("AAAAAAAAAAAAAAAAABBB".data) = 17 := by
      decide
    simp [simRatioQ, hm]
    norm_num
  · decide

/-- Claim C3 (amended): the merge test in `_cluster_entities` is strict —
for two names with distinct non-empty CanonicalKeys, the later name joins
the earlier cluster (whose most common variant, the earlier name, becomes
canonical for both) exactly when `SequenceMatcher` ratio of the new key
against the existing key strictly exceeds 0.85; at or below 0.85 the two
names form separate singleton clusters.  (The ratio is the exact rational
of the no-junk algorithm; difflib's autojunk heuristic, active only for
keys of 200 or more characters, is not modelled.) -/
theorem cluster_threshold_strict (a b : Str)
    (ha : fuzzyClusterKey a ≠ []) (hb : fuzzyClusterKey b ≠ [])
    (hne : fuzzyClusterKey b ≠ fuzzyClusterKey a) :
    ((17 : ℚ)/20 < simRatioQ (fuzzyClusterKey b) (fuzzyClusterKey a) →
      clusterEntities [a, b] = [(a, a), (b, a)]) ∧
    (¬ (17 : ℚ)/20 < simRatioQ (fuzzyClusterKey b) (fuzzyClusterKey a) →
      clusterEntities [a, b] = [(a, a), (b, b)]) := by
  have hane : a ≠ [] := by
    intro h
    exact ha (by rw [h]; rfl)
  have hbne : b ≠ [] := by
    intro h
    exact hb (by rw [h]; rfl)
  have hab : a ≠ b := by
    intro h
    exact hne (by rw [h])
  have hstep1 : clusterStep [] a = [(fuzzyClusterKey a, [a])] := by
    unfold clusterStep
    rw [if_neg hane]
    dsimp only
    rw [if_neg ha]
    rfl
  constructor
  · intro hgt
    have hgtb : simGT (fuzzyClusterKey b) (fuzzyClusterKey a) = true :=
      (simGT_iff _ _).mpr hgt
    have hstep2 : clusterStep [(fuzzyClusterKey a, [a])] b =
        [(fuzzyClusterKey a, [a, b])] := by
      unfold clusterStep
      rw [if_neg hbne]
      dsimp only
      rw [if_neg hb]
      have hfc : findCluster (fuzzyClusterKey b) [(fuzzyClusterKey a, [a])] =
          some (fuzzyClusterKey a) := by
        unfold findCluster
        rw [if_neg hne, if_pos hgtb]
      rw [hfc]
      unfold addVariant
      simp only [List.map_cons, List.map_nil]
      rw [if_pos trivial]
      rfl
    unfold clusterEntities
    simp only [List.foldl_cons, List.foldl_nil]
    rw [hstep1, hstep2]
    simp only [List.foldl_cons, List.foldl_nil]
    rw [mostCommonVariant_pair a b hab]
    have hd1 : dictUpd ([] : List (Str × Str)) a a = [(a, a)] := rfl
    rw [hd1]
    unfold dictUpd
    rw [if_neg (show ¬((a, a).1 = b) from fun h => hab h)]
    rfl
  · intro hgt
    have hgtb : simGT (fuzzyClusterKey b) (fuzzyClusterKey a) = false :=
      Bool.eq_false_iff.mpr (fun h2 => hgt ((simGT_iff _ _).mp h2))
    have hstep2 : clusterStep [(fuzzyClusterKey a, [a])] b =
        [(fuzzyClusterKey a, [a]), (fuzzyClusterKey b, [b])] := by
      unfold clusterStep
      rw [if_neg hbne]
      dsimp only
      rw [if_neg hb]
      have hfc : findCluster (fuzzyClusterKey b) [(fuzzyClusterKey a, [a])] = none := by
        unfold findCluster
        rw [if_neg hne, if_neg (by rw [hgtb]; exact Bool.false_ne_true)]
        rfl
      rw [hfc]
      rfl
    unfold clusterEntities
    simp only [List.foldl_cons, List.foldl_nil]
    rw [hstep1, hstep2]
    simp only [List.foldl_cons, List.foldl_nil]
    rw [mostCommonVariant_single a, mostCommonVariant_single b]
    have hd1 : dictUpd ([] : List (Str × Str)) a a = [(a, a)] := rfl
    rw [hd1]
    unfold dictUpd
    rw [if_neg (show ¬((a, a).1 = b) from fun h => hab h)]
    rfl

/-- Witness for C3: an OCR-style typo pair whose keys have ratio 0.9
merges, the earlier name becoming canonical for both. -/
theorem cluster_threshold_witness :
    clusterEntities [("EISENSTEIN MGMT LLC".data), ("EINENSTEIN MANAGEMENT CORP".data)] =
      [(("EISENSTEIN MGMT LLC".data), ("EISENSTEIN MGMT LLC".data)),
       (("EINENSTEIN MANAGEMENT CORP".data), ("EISENSTEIN MGMT LLC".data))] :=
  (cluster_threshold_strict ("EISENSTEIN MGMT LLC".data)
    ("EINENSTEIN MANAGEMENT CORP".data) (by decide) (by decide) (by decide)).1
    ((simGT_iff _ _).mp (by decide))

/-! ### Claim C2: idempotence of the key normalizer -/

theorem upper_fix_of_keepPunct (c : Char) (hk : keepPunct c = true) : pyUpperChar c = c := by
  have hnl : ¬(97 ≤ c.toNat ∧ c.toNat ≤ 122) := by
    unfold keepPunct at hk
    simp only [Bool.or_eq_true, decide_eq_true_eq] at hk
    rcases hk with (h | h) | h
    · omega
    · omega
    · unfold pyIsSpace at h
      simp only [Bool.or_eq_true, beq_iff_eq] at h
      rcases h with ((((h | h) | h) | h) | h) | h <;> subst h <;> decide
  unfold pyUpperChar
  rw [if_neg hnl]

theorem map_fix_of_forall (f : Char → Char) : ∀ (l : Str), (∀ c ∈ l, f c = c) → l.map f = l
  | [], _ => rfl
  | c :: rest, h => by
    rw [List.map_cons, h c (List.mem_cons_self c rest),
      map_fix_of_forall f rest (fun d hd => h d (List.mem_cons_of_mem c hd))]

theorem filter_fix (p : Char → Bool) : ∀ (l : Str), (∀ c ∈ l, p c = true) → l.filter p = l
  | [], _ => rfl
  | c :: rest, h => by
    rw [List.filter_cons, if_pos (h c (List.mem_cons_self c rest)),
      filter_fix p rest (fun d hd => h d (List.mem_cons_of_mem c hd))]

theorem dropWhile_head_false (p : Char → Bool) :
    ∀ (l : Str) (d : Char), (l.dropWhile p).head? = some d → p d = false
  | [], _, h => Option.noConfusion h
  | c :: rest, d, h => by
    by_cases hc : p c = true
    · rw [List.dropWhile_cons, if_pos hc] at h
      exact dropWhile_head_false p rest d h
    · rw [List.dropWhile_cons, if_neg hc, List.head?_cons] at h
      injection h with h
      rw [← h]
      exact Bool.eq_false_iff.mpr hc

theorem dropWhile_fix (p : Char → Bool) (l : Str)
    (h : ∀ d, l.head? = some d → p d = false) : l.dropWhile p = l := by
  cases l with
  | nil => rfl
  | cons c rest =>
    rw [List.dropWhile_cons, if_neg (by rw [h c rfl]; exact Bool.false_ne_true)]

theorem dropTrail_fix (p : Char → Bool) (l : Str)
    (h : ∀ d, l.reverse.head? = some d → p d = false) : dropTrail p l = l := by
  unfold dropTrail
  rw [dropWhile_fix p l.reverse h, List.reverse_reverse]

theorem mem_of_mem_dropWhile (p : Char → Bool) :
    ∀ (l : Str) (c : Char), c ∈ l.dropWhile p → c ∈ l
  | [], _, h => h
  | d :: rest, c, h => by
    by_cases hd : p d = true
    · rw [List.dropWhile_cons, if_pos hd] at h
      exact List.mem_cons_of_mem d (mem_of_mem_dropWhile p rest c h)
    · rw [List.dropWhile_cons, if_neg hd] at h
      exact h

theorem mem_of_mem_pyStrip (l : Str) (c : Char) (h : c ∈ pyStrip l) : c ∈ l := by
  unfold pyStrip dropTrail at h
  rw [List.mem_reverse] at h
  have h2 := mem_of_mem_dropWhile pyIsSpace (l.dropWhile pyIsSpace).reverse c h
  rw [List.mem_reverse] at h2
  exact mem_of_mem_dropWhile pyIsSpace l c h2

theorem dropWhile_is_suffix (p : Char → Bool) : ∀ (l : Str), ∃ t, t ++ l.dropWhile p = l
  | [] => ⟨[], rfl⟩
  | c :: rest => by
    by_cases hc : p c = true
    · obtain ⟨t, ht⟩ := dropWhile_is_suffix p rest
      exact ⟨c :: t, by rw [List.dropWhile_cons, if_pos hc, List.cons_append, ht]⟩
    · exact ⟨[], by rw [List.dropWhile_cons, if_neg hc, List.nil_append]⟩

theorem head?_append_left (l₁ l₂ : Str) (d : Char) (h : l₁.head? = some d) :
    (l₁ ++ l₂).head? = some d := by
  cases l₁ with
  | nil => exact Option.noConfusion h
  | cons c r =>
    rw [List.head?_cons] at h
    rw [List.cons_append, List.head?_cons]
    exact h

theorem pyStrip_head_false (l : Str) (d : Char) (h : (pyStrip l).head? = some d) :
    pyIsSpace d = false := by
  unfold pyStrip dropTrail at h
  obtain ⟨t, ht⟩ := dropWhile_is_suffix pyIsSpace (l.dropWhile pyIsSpace).reverse
  have hw2 : l.dropWhile pyIsSpace =
      ((l.dropWhile pyIsSpace).reverse.dropWhile pyIsSpace).reverse ++ t.reverse := by
    have h3 := congrArg List.reverse ht
    rw [List.reverse_append, List.reverse_reverse] at h3
    exact h3.symm
  have hhw : (l.dropWhile pyIsSpace).head? = some d := by
    rw [hw2]
    exact head?_append_left _ _ d h
  exact dropWhile_head_false pyIsSpace l d hhw

theorem pyStrip_last_false (l : Str) (d : Char) (h : (pyStrip l).reverse.head? = some d) :
    pyIsSpace d = false := by
  unfold pyStrip dropTrail at h
  rw [List.reverse_reverse] at h
  exact dropWhile_head_false pyIsSpace (l.dropWhile pyIsSpace).reverse d h

theorem pyStrip_idem (l : Str) : pyStrip (pyStrip l) = pyStrip l := by
  have h1 : (pyStrip l).dropWhile pyIsSpace = pyStrip l :=
    dropWhile_fix pyIsSpace (pyStrip l) (fun d hd => pyStrip_head_false l d hd)
  have h2 : dropTrail pyIsSpace (pyStrip l) = pyStrip l :=
    dropTrail_fix pyIsSpace (pyStrip l) (fun d hd => pyStrip_last_false l d hd)
  calc pyStrip (pyStrip l) = dropTrail pyIsSpace ((pyStrip l).dropWhile pyIsSpace) := rfl
    _ = dropTrail pyIsSpace (pyStrip l) := by rw [h1]
    _ = pyStrip l := h2

theorem chain'_dropWhile {R : Char → Char → Prop} (p : Char → Bool) :
    ∀ (l : Str), List.Chain' R l → List.Chain' R (l.dropWhile p)
  | [], h => h
  | c :: rest, h => by
    by_cases hc : p c = true
    · rw [List.dropWhile_cons, if_pos hc]
      exact chain'_dropWhile p rest (List.chain'_cons'.mp h).2
    · rw [List.dropWhile_cons, if_neg hc]
      exact h

theorem chain'_dropTrail {R : Char → Char → Prop} (p : Char → Bool) (l : Str)
    (h : List.Chain' R l) : List.Chain' R (dropTrail p l) := by
  unfold dropTrail
  rw [List.chain'_reverse]
  apply chain'_dropWhile
  rw [List.chain'_reverse]
  exact h

theorem collapseGo_mem : ∀ (s : Str) (b : Bool) (c : Char), c ∈ collapseGo b s → c = ' ' ∨ c ∈ s
  | [], _, c, h => absurd h (List.not_mem_nil c)
  | d :: rest, b, c, h => by
    unfold collapseGo at h
    by_cases hd : pyIsSpace d = true
    · rw [if_pos hd] at h
      cases b with
      | true =>
        rw [if_pos rfl] at h
        rcases collapseGo_mem rest true c h with h1 | h1
        · exact Or.inl h1
        · exact Or.inr (List.mem_cons_of_mem d h1)
      | false =>
        rw [if_neg Bool.false_ne_true] at h
        rcases List.mem_cons.mp h with h1 | h1
        · exact Or.inl h1
        · rcases collapseGo_mem rest true c h1 with h2 | h2
          · exact Or.inl h2
          · exact Or.inr (List.mem_cons_of_mem d h2)
    · rw [if_neg hd] at h
      rcases List.mem_cons.mp h with h1 | h1
      · exact Or.inr (h1 ▸ List.mem_cons_self d rest)
      · rcases collapseGo_mem rest false c h1 with h2 | h2
        · exact Or.inl h2
        · exact Or.inr (List.mem_cons_of_mem d h2)

theorem collapseGo_space :
    ∀ (s : Str) (b : Bool) (c : Char), c ∈ collapseGo b s → pyIsSpace c = true → c = ' '
  | [], _, c, h, _ => absurd h (List.not_mem_nil c)
  | d :: rest, b, c, h, hsp => by
    unfold collapseGo at h
    by_cases hd : pyIsSpace d = true
    · rw [if_pos hd] at h
      cases b with
      | true =>
        rw [if_pos rfl] at h
        exact collapseGo_space rest true c h hsp
      | false =>
        rw [if_neg Bool.false_ne_true] at h
        rcases List.mem_cons.mp h with h1 | h1
        · exact h1
        · exact collapseGo_space rest true c h1 hsp
    · rw [if_neg hd] at h
      rcases List.mem_cons.mp h with h1 | h1
      · exact absurd (h1 ▸ hsp) hd
      · exact collapseGo_space rest false c h1 hsp

theorem collapseGo_head_true :
    ∀ (s : Str) (d : Char), (collapseGo true s).head? = some d → pyIsSpace d = false
  | [], _, h => Option.noConfusion h
  | c :: rest, d, h => by
    unfold collapseGo at h
    by_cases hc : pyIsSpace c = true
    · rw [if_pos hc, if_pos rfl] at h
      exact collapseGo_head_true rest d h
    · rw [if_neg hc, List.head?_cons] at h
      injection h with h
      rw [← h]
      exact Bool.eq_false_iff.mpr hc

theorem collapseGo_chain : ∀ (s : Str) (b : Bool),
    List.Chain' (fun c d => pyIsSpace c = false ∨ pyIsSpace d = false) (collapseGo b s)
  | [], _ => List.chain'_nil
  | c :: rest, b => by
    unfold collapseGo
    by_cases hc : pyIsSpace c = true
    · rw [if_pos hc]
      cases b with
      | true => exact collapseGo_chain rest true
      | false =>
        rw [if_neg Bool.false_ne_true, List.chain'_cons']
        constructor
        · intro d hd
          exact Or.inr (collapseGo_head_true rest d (Option.mem_def.mp hd))
        · exact collapseGo_chain rest true
    · rw [if_neg hc, List.chain'_cons']
      constructor
      · intro d _
        exact Or.inl (Bool.eq_false_iff.mpr hc)
      · exact collapseGo_chain rest false

theorem collapseGo_fix : ∀ (l : Str),
    (∀ c ∈ l, pyIsSpace c = true → c = ' ') →
    List.Chain' (fun c d => pyIsSpace c = false ∨ pyIsSpace d = false) l →
    ∀ b : Bool, (b = true → ∀ d, l.head? = some d → pyIsSpace d = false) →
    collapseGo b l = l
  | [], _, _, _, _ => rfl
  | c :: rest, hm, hch, b, hb => by
    by_cases hc : pyIsSpace c = true
    · have hcs : c = ' ' := hm c (List.mem_cons_self c rest) hc
      cases b with
      | true => exact absurd (hb rfl c rfl) (by rw [hc]; decide)
      | false =>
        unfold collapseGo
        rw [if_pos hc, if_neg Bool.false_ne_true, hcs]
        congr 1
        exact collapseGo_fix rest (fun d hd => hm d (List.mem_cons_of_mem c hd))
          (List.chain'_cons'.mp hch).2 true
          (fun _ d hd => ((List.chain'_cons'.mp hch).1 d (Option.mem_def.mpr hd)).resolve_left
            (by rw [hc]; decide))
    · unfold collapseGo
      rw [if_neg hc]
      congr 1
      exact collapseGo_fix rest (fun d hd => hm d (List.mem_cons_of_mem c hd))
        (List.chain'_cons'.mp hch).2 false (fun hff => absurd hff Bool.false_ne_true)

theorem fuzzyClusterKey_fix_parts (y : Str) (hy : y ≠ [])
    (hup : pyUpper y = y) (hstr : pyStrip y = y) (hsub : subSuf false y = y)
    (hfil : List.filter keepPunct y = y) (hcol : collapseRuns y = y) :
    fuzzyClusterKey y = y := by
  unfold fuzzyClusterKey
  rw [if_neg hy, hup, hstr, hsub, hfil, hcol, hstr]

/-- Counterexample to C2 as stated: `_fuzzy_cluster_key` is not idempotent.
`"L-L-C"` normalizes to `"LLC"` (the dashes defeat the word-boundary suffix
match, and the later punctuation removal manufactures a bare legal suffix),
and a second application strips that suffix, giving the empty string. -/
theorem fuzzyClusterKey_not_idempotent :
    fuzzyClusterKey (fuzzyClusterKey ("L-L-C".data)) ≠ fuzzyClusterKey ("L-L-C".data) := by
  decide

/-- Claim C2 (amended): `_fuzzy_cluster_key` is idempotent on every input
whose key contains no residual legal-entity suffix — that is, whenever the
suffix-removal pass fixes the produced key (the only way a second
application can differ is punctuation removal manufacturing a fresh
suffix token, as in `"L-L-C"`).  On such inputs a second application
returns the key unchanged: the key is already uppercase (all characters
lie in `[A-Z0-9 ]`), stripped, free of characters outside `[A-Z0-9\s]`,
and has single internal spaces only, so every remaining pass fixes it. -/
theorem fuzzyClusterKey_idem_of_fixed_suffix (x : Str)
    (h : subSuf false (fuzzyClusterKey x) = fuzzyClusterKey x) :
    fuzzyClusterKey (fuzzyClusterKey x) = fuzzyClusterKey x := by
  by_cases hx : x = []
  · rw [hx]
    rfl
  · by_cases hy : fuzzyClusterKey x = []
    · rw [hy]
      rfl
    · have hyz : fuzzyClusterKey x =
          pyStrip (collapseRuns (List.filter keepPunct (subSuf false (pyStrip (pyUpper x))))) := by
        unfold fuzzyClusterKey
        rw [if_neg hx]
      have hmem2 : ∀ c ∈ fuzzyClusterKey x,
          c = ' ' ∨ c ∈ List.filter keepPunct (subSuf false (pyStrip (pyUpper x))) := by
        intro c hc
        rw [hyz] at hc
        exact collapseGo_mem _ false c (mem_of_mem_pyStrip _ c hc)
      have hkeep : ∀ c ∈ fuzzyClusterKey x, keepPunct c = true := by
        intro c hc
        rcases hmem2 c hc with h1 | h1
        · rw [h1]
          decide
        · exact (List.mem_filter.mp h1).2
      have hspace : ∀ c ∈ fuzzyClusterKey x, pyIsSpace c = true → c = ' ' := by
        intro c hc
        rw [hyz] at hc
        exact collapseGo_space _ false c (mem_of_mem_pyStrip _ c hc)
      have hchain : List.Chain' (fun c d => pyIsSpace c = false ∨ pyIsSpace d = false)
          (fuzzyClusterKey x) := by
        rw [hyz]
        exact chain'_dropTrail pyIsSpace _ (chain'_dropWhile pyIsSpace _ (collapseGo_chain _ false))
      have hup : pyUpper (fuzzyClusterKey x) = fuzzyClusterKey x :=
        map_fix_of_forall pyUpperChar _ (fun c hc => upper_fix_of_keepPunct c (hkeep c hc))
      have hstr : pyStrip (fuzzyClusterKey x) = fuzzyClusterKey x := by
        rw [hyz]
        exact pyStrip_idem _
      have hfil : List.filter keepPunct (fuzzyClusterKey x) = fuzzyClusterKey x :=
        filter_fix keepPunct _ hkeep
      have hcol : collapseRuns (fuzzyClusterKey x) = fuzzyClusterKey x :=
        collapseGo_fix _ hspace hchain false (fun hff => absurd hff Bool.false_ne_true)
      exact fuzzyClusterKey_fix_parts _ hy hup hstr h hfil hcol

/-- Witness for C2: a typical corporate name whose key, `"EISENSTEIN"`,
contains no residual suffix token, so normalization is idempotent on it. -/
theorem fuzzyClusterKey_idem_witness :
    fuzzyClusterKey (fuzzyClusterKey ("Eisenstein Realty LLC".data)) =
      fuzzyClusterKey ("Eisenstein Realty LLC".data) :=
  fuzzyClusterKey_idem_of_fixed_suffix ("Eisenstein Realty LLC".data) (by decide)
